import Mathlib

/-!
blesensor: the reply parser, the acquisition cycle, the scheduler and the scanner.

A shallow embedding of `main.go` (`parseInt`, `pollOnce`, `poll`, the callback of
`scan`) together with the part of Go's `fmt.Sscanf` that `parseInt` runs and the
`float64` arithmetic of the temperature conversion.

Conventions.
* A byte payload or a format string is a `List Nat` of runes: the code points
  that Go's rune reader yields for it.  For ASCII text these are the bytes
  themselves; every statement quantified over all rune lists therefore covers
  every byte payload.
* Go strings that are only compared or concatenated (addresses, names, error
  messages) are Lean strings.
* `intBits` is the size of Go's `int` on the platform, 32 or 64.
* The functions of the program take the `float64` operations as a parameter
  (`Float64Ops`); `binary64` gives them their meaning: rounding to nearest, ties
  to even, with the product and the sum of `x*y + z` fused or not.
-/

namespace BleSensor

set_option maxRecDepth 8000

/-! ## The scanner of `fmt` -/

/-- The rune test `isSpace` of `fmt/scan.go` (its range table, written out). -/
def isSpace (r : Nat) : Bool :=
  (0x09 ≤ r && r ≤ 0x0d) || r == 0x20 || r == 0x85 || r == 0xa0 || r == 0x1680 ||
  (0x2000 ≤ r && r ≤ 0x200a) || (0x2028 ≤ r && r ≤ 0x2029) || r == 0x202f ||
  r == 0x205f || r == 0x3000

/-- The read limit `hugeWid` of a scan state: no rune at or beyond this position is read. -/
def hugeWid : Nat := 2 ^ 30

/-- Membership in `decimalDigits = "0123456789"`. -/
def isDigit (r : Nat) : Bool := 48 ≤ r && r ≤ 57

/-- Method `SkipSpace` of the scan state, in the mode of `Sscanf` (`nlIsSpace = false`):
spaces are skipped, a newline is an error (`none`). -/
def SkipSpace : List Nat → Option (List Nat)
  | [] => some []
  | r :: rest =>
    if r = 13 ∧ rest.head? = some 10 then SkipSpace rest
    else if r = 10 then none
    else if isSpace r then SkipSpace rest
    else some (r :: rest)

/-- The loop `for isSpace(inputc) && inputc != '\n' { inputc = s.getRune() }` of `advance`:
the result starts at the rune that ended the loop (empty at end of input). -/
def skipBlanks : List Nat → List Nat
  | [] => []
  | r :: rest => if isSpace r && r != 10 then skipBlanks rest else r :: rest

/-- The input side of `newlines` newlines in a run of format spaces: each one
matches blanks followed by a newline or the end of the input. -/
def matchNewlines : Nat → List Nat → Option (List Nat)
  | 0, inp => some inp
  | n + 1, inp =>
    match skipBlanks inp with
    | [] => matchNewlines n []
    | r :: rest => if r = 10 then matchNewlines n rest else none

/-- The input side of trailing blanks in a run of format spaces: standing alone
(no newline before them) they need a blank or the end of the input. -/
def matchTrailing (newlines : Nat) (inp : List Nat) : Option (List Nat) :=
  match inp with
  | [] => some []
  | r :: _ =>
    if newlines = 0 ∧ (isSpace r = false ∨ r = 10) then none else some (skipBlanks inp)

/-- Consumes the input for a completed run of format spaces, described by its
number of newlines and whether blanks follow the last newline. -/
def flushSpace (pend : Option (Nat × Bool)) (inp : List Nat) : Option (List Nat) :=
  match pend with
  | none => some inp
  | some (nl, tr) =>
    match matchNewlines nl inp with
    | none => none
    | some inp1 => if tr then matchTrailing nl inp1 else some inp1

/-- Outcome of `advance`: a scan error, the return value `-1` (literal mismatch, the
rune is unread), or the number `i` of format runes consumed; with the input left. -/
inductive Adv where
  | err : Adv
  | mismatch (inp : List Nat) : Adv
  | stop (i : Nat) (inp : List Nat) : Adv
  deriving DecidableEq, Repr

/-- Method `advance` of the scan state.  `pend` is the run of format spaces being
collected (`newlines`, `trailingSpace`), `i` the count of format runes consumed. -/
def advance (pend : Option (Nat × Bool)) (i : Nat) : List Nat → List Nat → Adv
  | [], inp =>
    match flushSpace pend inp with
    | none => .err
    | some inp1 => .stop i inp1
  | c :: f, inp =>
    if isSpace c then
      advance (some (if c = 10 then ((pend.getD (0, false)).1 + 1, false)
                     else ((pend.getD (0, false)).1, true))) (i + 1) f inp
    else
      match flushSpace pend inp with
      | none => .err
      | some inp1 =>
        if c = 37 then
          match f with
          | [] => .err
          | n :: f1 =>
            if n ≠ 37 then .stop i inp1
            else
              match inp1 with
              | [] => .err
              | r :: rest => if r = 37 then advance none (i + 2) f1 rest else .mismatch inp1
        else
          match inp1 with
          | [] => .err
          | r :: rest => if r = c then advance none (i + 1) f rest else .mismatch inp1

/-- Function `ParseUint(s, 10, 64)` of `strconv`, as a loop over the digits with its
overflow checks; `none` is a syntax or range error. -/
def ParseUint (s : List Nat) : Option Nat :=
  if s = [] then none
  else s.foldlM (fun n c =>
    if isDigit c then
      if n ≥ (2 ^ 64 - 1) / 10 + 1 then none
      else
        let n1 := (n * 10 + (c - 48)) % 2 ^ 64
        if n1 < n * 10 then none else some n1
    else none) 0

/-- Function `ParseInt(s, 10, 64)` of `strconv`; `none` is a syntax or range error. -/
def ParseInt (s : List Nat) : Option Int :=
  match s with
  | [] => none
  | c :: t =>
    let neg := c = 45
    let body := if c = 43 ∨ c = 45 then t else s
    match ParseUint body with
    | none => none
    | some un =>
      if ¬ neg ∧ un ≥ 2 ^ 63 then none
      else if neg ∧ un > 2 ^ 63 then none
      else some (if neg then -(un : Int) else (un : Int))

/-- The truncation `(i << (64 - n)) >> (64 - n)` of `scanInt`: `i` reduced to a signed
`n`-bit integer. -/
def signExtend (n : Nat) (i : Int) : Int :=
  (i + 2 ^ (n - 1)) % 2 ^ n - 2 ^ (n - 1)

/-- Method `scanInt` for the verb `d` and an operand of `intBits` bits: skip space,
an optional sign, the digits, `ParseInt`, the overflow check.  Returns the value
and the input left; `none` is a scan error. -/
def scanInt (intBits : Nat) (inp : List Nat) : Option (Int × List Nat) :=
  match SkipSpace inp with
  | none => none
  | some [] => none
  | some (r :: rest) =>
    let sgn : List Nat := if r = 43 ∨ r = 45 then [r] else []
    let inp1 := if r = 43 ∨ r = 45 then rest else r :: rest
    match inp1 with
    | [] => none
    | d :: _ =>
      if isDigit d then
        match ParseInt (sgn ++ inp1.takeWhile isDigit) with
        | none => none
        | some i =>
          if signExtend intBits i = i then some (i, inp1.dropWhile isDigit) else none
      else none

/-- Method `scanPercent`: skip space, then a literal percent sign. -/
def scanPercent (inp : List Nat) : Option (List Nat) :=
  match SkipSpace inp with
  | some (r :: rest) => if r = 37 then some rest else none
  | _ => none

/-- Method `doScanf` for the operand list of `parseInt`, one `*int`.  State: the
format left, the input left, `numProcessed` and the operand's value `d`; result:
`numProcessed`, whether `err == nil`, and `d`.

Each round of the loop consumes at least one format rune, so a `fuel` above the
format's length is never used up (`doScanf_fuel`).  The formats of this program
hold literal text and the verb `d` only: a width and the other verbs are not
modelled and fail the scan. -/
def doScanf (intBits : Nat) : Nat → List Nat → List Nat → Nat → Int → Nat × Bool × Int
  | 0, _, _, np, d => (np, false, d)
  | fuel + 1, format, inp, np, d =>
    match format with
    -- the loop is over; `numProcessed < len(a)` is the error "too many operands"
    | [] => (np, decide (1 ≤ np), d)
    | c0 :: _ =>
      match advance none 0 format inp with
      | .err => (np, false, d)
      -- `w > 0`: `i += w; continue`
      | .stop (w + 1) inp1 => doScanf intBits fuel (format.drop (w + 1)) inp1 np d
      -- `w <= 0`
      | a =>
        let inp1 := match a with
          | .mismatch i1 => i1
          | .stop _ i1 => i1
          | .err => inp
        if c0 ≠ 37 then
          -- `format[i] != '%'`: an error when `w < 0`, else `break`
          (match a with
           | .mismatch _ => (np, false, d)
           | _ => (np, decide (1 ≤ np), d))
        else
          -- the verb `c` after the percent sign
          match format.drop 1 with
          | [] => (np, false, d)
          | c :: f1 =>
            match SkipSpace inp1 with
            | none => (np, false, d)
            | some inp2 =>
              if c = 37 then
                match scanPercent inp2 with
                | none => (np, false, d)
                | some inp3 => doScanf intBits fuel f1 inp3 np d
              -- `numProcessed >= len(a)`: too few operands
              else if 1 ≤ np then (np, false, d)
              -- `scanOne(c, arg)` for the verb `d`, then `numProcessed++`
              else if c = 100 then
                match scanInt intBits inp2 with
                | none => (np, false, d)
                | some (v, inp3) => doScanf intBits fuel f1 inp3 (np + 1) v
              else (np, false, d)

/-- The call `fmt.Sscanf(str, format, &d)` with `d` an `int` of `intBits` bits,
initially zero: the count of operands scanned, whether the error is nil, and `d`. -/
def Sscanf (intBits : Nat) (str format : List Nat) : Nat × Bool × Int :=
  doScanf intBits (format.length + 1) format (str.take hugeWid) 0 0

/-! ## `parseInt` and its two templates -/

/-- Function `parseInt` of `main.go`. -/
def parseInt (intBits : Nat) (input format : List Nat) : Int × Bool :=
  match Sscanf intBits input format with
  | (n, ok, d) => if n = 1 ∧ ok = true then (d, true) else (0, false)

/-- Runes of an ASCII literal. -/
def runes (s : String) : List Nat := s.toList.map Char.toNat

/-- The template `"Battery voltage (mV): %d"`. -/
def batteryFormat : List Nat := runes "Battery voltage (mV): %d"

/-- The template `"Temperature value (0.01 degC): %d"`. -/
def tempFormat : List Nat := runes "Temperature value (0.01 degC): %d"

/-- The literal text of the battery template, before its verb. -/
def batteryLiteral : List Nat := runes "Battery voltage (mV): "

/-- The literal text of the temperature template, before its verb. -/
def tempLiteral : List Nat := runes "Temperature value (0.01 degC): "

/-! ## The arithmetic of `float64` -/

/-- The `float64` operations the program performs, over a carrier `F` of gauge
values: the conversion `float64(d)`, the expression `x*y + z` as the platform
evaluates it (Go may fuse the product and the sum into a single rounding), the
constants `0.018` and `32`, and the zero value. -/
structure Float64Ops (F : Type) where
  ofInt : Int → F
  mulAdd : F → F → F → F
  c0018 : F
  c32 : F
  zero : F

/-- The operations in exact rational arithmetic. -/
def exactOps : Float64Ops ℚ where
  ofInt := fun d => (d : ℚ)
  mulAdd := fun x y z => x * y + z
  c0018 := 18 / 1000
  c32 := 32
  zero := 0

/-- A finite `float64`: the number `mant * 2 ^ exp`.  Zero is `(0, 0)`; every other
value made by `Float64.round` has `2 ^ 52 ≤ |mant| < 2 ^ 53`.  The exponent range
is not modelled (no overflow, no subnormal numbers): the values this program
computes from an `int` stay inside it. -/
structure Float64 where
  mant : Int
  exp : Int
  deriving DecidableEq, Repr

/-- The number of binary digits of `a`, by halving; `fuel` bounds the halvings. -/
def bitLength : Nat → Nat → Nat
  | 0, _ => 0
  | fuel + 1, a => if a = 0 then 0 else bitLength fuel (a / 2) + 1

/-- Rounding to `float64`: the value nearest to `n * 2 ^ e`, a tie going to the even
mantissa.  Up to 53 binary digits are kept as they are; beyond, the digits cut
off are compared with one half. -/
def Float64.round (n : Int) (e : Int) : Float64 :=
  if n = 0 then ⟨0, 0⟩
  else
    let a := n.natAbs
    let len := bitLength a a
    if len ≤ 53 then ⟨n * 2 ^ (53 - len), e - ((53 - len : Nat) : Int)⟩
    else
      let s := len - 53
      let q := a / 2 ^ s
      let r := a % 2 ^ s
      let q1 := if 2 ^ (s - 1) < r ∨ (r = 2 ^ (s - 1) ∧ q % 2 = 1) then q + 1 else q
      let m : Nat := if q1 = 2 ^ 53 then 2 ^ 52 else q1
      let x : Int := if q1 = 2 ^ 53 then e + (s : Int) + 1 else e + (s : Int)
      ⟨if n < 0 then -(m : Int) else (m : Int), x⟩

/-- The conversion `float64(d)` of an integer. -/
def Float64.ofInt (d : Int) : Float64 := Float64.round d 0

/-- The exact sum of two values, as a numerator and a binary exponent. -/
def Float64.sum (x y : Float64) : Int × Int :=
  (x.mant * 2 ^ (x.exp - min x.exp y.exp).toNat + y.mant * 2 ^ (y.exp - min x.exp y.exp).toNat,
    min x.exp y.exp)

/-- The product `x * y`, rounded. -/
def Float64.mul (x y : Float64) : Float64 := Float64.round (x.mant * y.mant) (x.exp + y.exp)

/-- The sum `x + y`, rounded. -/
def Float64.add (x y : Float64) : Float64 :=
  Float64.round (Float64.sum x y).1 (Float64.sum x y).2

/-- The fused `x * y + z`: the exact product added to `z`, rounded once. -/
def Float64.fma (x y z : Float64) : Float64 :=
  Float64.round (Float64.sum ⟨x.mant * y.mant, x.exp + y.exp⟩ z).1
    (Float64.sum ⟨x.mant * y.mant, x.exp + y.exp⟩ z).2

/-- The constant `0.018` as a `float64`: `5188146770730811 * 2 ^ (-58)`, the value
nearest to `18/1000` (`c0018_nearest`). -/
def Float64.c0018 : Float64 := ⟨5188146770730811, -58⟩

/-- The rational number a `float64` stands for. -/
def Float64.toRat (x : Float64) : ℚ := (x.mant : ℚ) * (2 : ℚ) ^ x.exp

/-- The operations in `float64` arithmetic, on a platform that fuses `x*y + z`
(`fused = true`) or rounds the product and the sum one after the other. -/
def binary64 (fused : Bool) : Float64Ops Float64 where
  ofInt := Float64.ofInt
  mulAdd := fun x y z => if fused then Float64.fma x y z else Float64.add (Float64.mul x y) z
  c0018 := Float64.c0018
  c32 := Float64.ofInt 32
  zero := ⟨0, 0⟩

/-! ## Devices, gauges and the transport -/

/-- Struct `Device` of `config.go`; `Freq` is a `time.Duration` (nanoseconds). -/
structure Device where
  Name : String
  Address : String
  Disp : String
  Orig : String
  Freq : Int
  deriving DecidableEq, Repr

/-- The constant `time.Minute`, in nanoseconds. -/
def Minute : Int := 60 * 1000000000

/-- The three gauge vectors of `metrics.go`. -/
inductive Gauge where
  | metricTemp
  | metricBattery
  | metricLastConnectionTime
  deriving DecidableEq, Repr

/-- The label values `(address, name, display_name)` of a gauge child. -/
abbrev Labels := String × String × String

/-- What one run of `pollOnce` does to the outside, in program order. -/
inductive Event (F : Type) where
  | withLabelValues (g : Gauge) (labels : Labels) : Event F
  | connect (addr : String) : Event F
  | discoverServices : Event F
  | discoverCharacteristics : Event F
  | enableNotifications : Event F
  | write (cmd : List Nat) : Event F
  | sleep (ms : Nat) : Event F
  | set (g : Gauge) (labels : Labels) (v : F) : Event F
  | printf (name : String) (f : F) (mv : Int) : Event F
  | disconnect : Event F
  deriving DecidableEq, Repr

/-- A characteristic of the transport: the outcome of `EnableNotifications` on it
(`none` is a nil error) and the payloads it notifies while subscribed, those
arriving during the pacing delay and those arriving during the collection window. -/
structure Characteristic where
  enableNotifications : Option String
  early : List (List Nat)
  late : List (List Nat)
  deriving DecidableEq, Repr

/-- A service of the transport, with the outcome of `DiscoverCharacteristics` on it. -/
structure Service where
  characteristics : Except String (List Characteristic)

/-- The behaviour of the BLE transport during one acquisition cycle: the outcome of
each primitive (`none` is a nil error) and the seconds `time.Since(start)` reports. -/
structure Transport (F : Type) where
  connect : Option String
  elapsed : F
  services : Except String (List Service)
  disconnect : Option String

/-- How a Go call ends: it returns nil, returns an error, or panics. -/
inductive Result where
  | nil : Result
  | error (msg : String) : Result
  | panic (msg : String) : Result
  deriving DecidableEq, Repr

/-- The variables `mv` and `f` captured by the notification callback, and the
events so far. -/
structure CbState (F : Type) where
  mv : Int
  f : F
  log : List (Event F)

/-- The notification callback of `pollOnce`, run on one payload `buf`. -/
def onNotify {F : Type} (ops : Float64Ops F) (intBits : Nat) (labels : Labels)
    (st : CbState F) (buf : List Nat) : CbState F :=
  match parseInt intBits buf batteryFormat with
  | (d, true) =>
    { st with mv := d, log := st.log ++ [Event.set Gauge.metricBattery labels (ops.ofInt d)] }
  | (_, false) =>
    match parseInt intBits buf tempFormat with
    | (d, true) =>
      { st with f := ops.mulAdd (ops.ofInt d) ops.c0018 ops.c32,
                log := st.log ++ [Event.set Gauge.metricTemp labels
                  (ops.mulAdd (ops.ofInt d) ops.c0018 ops.c32)] }
    | (_, false) => st

/-- Function `pollOnce` of `main.go` against a transport `t`: how it ends and the
events it caused.  An index out of range is a panic.  The notifications are those
the subscribed characteristic delivers before the summary line is printed. -/
def pollOnce {F : Type} (ops : Float64Ops F) (intBits : Nat) (d : Device)
    (t : Transport F) : Result × List (Event F) :=
  let labels : Labels := (d.Address, d.Name, d.Disp)
  let log0 : List (Event F) :=
    [Event.withLabelValues Gauge.metricLastConnectionTime labels,
     Event.withLabelValues Gauge.metricBattery labels,
     Event.withLabelValues Gauge.metricTemp labels,
     Event.connect d.Address]
  match t.connect with
  | some e => (Result.error ("connect: " ++ e), log0)
  | none =>
    let log1 := log0 ++
      [Event.set Gauge.metricLastConnectionTime labels t.elapsed, Event.discoverServices]
    match t.services with
    | .error e => (Result.error ("discover services: " ++ e), log1)
    | .ok [] => (Result.panic "index out of range [0] with length 0", log1)
    | .ok (svc :: _) =>
      let log2 := log1 ++ [Event.discoverCharacteristics]
      match svc.characteristics with
      | .error e => (Result.error ("discover characteristics: " ++ e), log2)
      | .ok [] => (Result.panic "index out of range [0] with length 0", log2)
      | .ok [_] => (Result.panic "index out of range [1] with length 1", log2)
      | .ok (tx :: _ :: _) =>
        let log3 := log2 ++ [Event.enableNotifications]
        match tx.enableNotifications with
        | some e => (Result.error ("enable notification on uart tx: " ++ e), log3)
        | none =>
          let s0 : CbState F :=
            { mv := 0, f := ops.zero,
              log := log3 ++ [Event.write (runes "GET_BATT_VOLTAGE\n"), Event.sleep 100] }
          let s1 := tx.early.foldl (onNotify ops intBits labels) s0
          let s2 : CbState F :=
            { s1 with log := s1.log ++ [Event.write (runes "GET_SENSOR_DATA\n"), Event.sleep 1000] }
          let s3 := tx.late.foldl (onNotify ops intBits labels) s2
          let log4 := s3.log ++ [Event.printf d.Name s3.f s3.mv, Event.disconnect]
          match t.disconnect with
          | some e => (Result.error ("disconnect: " ++ e), log4)
          | none => (Result.nil, log4)

/-- The effect of one event on the value published for the child `labels` of the
gauge `g`: `WithLabelValues` makes the child, with the value `zero`, when it is not
there yet; `Set` stores a value. -/
def gaugeStep {F : Type} (zero : F) (g : Gauge) (labels : Labels) (cur : Option F)
    (e : Event F) : Option F :=
  match e with
  | Event.withLabelValues g1 l1 =>
    if g1 = g ∧ l1 = labels then (match cur with
      | none => some zero
      | some v => some v) else cur
  | Event.set g1 l1 v => if g1 = g ∧ l1 = labels then some v else cur
  | _ => cur

/-- The value the registry publishes for the child `labels` of the gauge `g` after
a list of events, starting without children: `none` when the child was never made. -/
def gaugeValue {F : Type} (zero : F) (g : Gauge) (labels : Labels) (log : List (Event F)) :
    Option F :=
  log.foldl (gaugeStep zero g labels) none

/-! ## The scheduler loop -/

/-- What the loop `poll` does, in program order. -/
inductive PollEvent (F : Type) where
  | cycle (r : Result) (log : List (Event F)) : PollEvent F
  | printErr (name : String) (msg : String) : PollEvent F
  | newTicker (d : Int) : PollEvent F
  | tick : PollEvent F

/-- The events of a cycle run by `poll`: the cycle, then the report of its error. -/
def cycleEvents {F : Type} (dev : Device) (r : Result × List (Event F)) : List (PollEvent F) :=
  match r.1 with
  | Result.error msg => [PollEvent.cycle r.1 r.2, PollEvent.printErr dev.Name msg]
  | _ => [PollEvent.cycle r.1 r.2]

/-- The loop `for range t.C` of `poll` over the next `ticks` ticks, the `k`-th cycle
meeting the transport `env k`.  Returns the events and the panic that ended the
loop, if one did. -/
def pollLoop {F : Type} (ops : Float64Ops F) (intBits : Nat) (dev : Device)
    (env : Nat → Transport F) : Nat → Nat → List (PollEvent F) × Option String
  | _, 0 => ([], none)
  | k, ticks + 1 =>
    match pollOnce ops intBits dev (env k) with
    | (Result.panic msg, log) => ([PollEvent.tick, PollEvent.cycle (Result.panic msg) log], some msg)
    | r =>
      let rest := pollLoop ops intBits dev env (k + 1) ticks
      (PollEvent.tick :: cycleEvents dev r ++ rest.1, rest.2)

/-- Function `poll` of `main.go`, observed until `ticks` ticks of its ticker have
been received.  `time.NewTicker` panics on a non-positive duration. -/
def poll {F : Type} (ops : Float64Ops F) (intBits : Nat) (dev : Device)
    (env : Nat → Transport F) (ticks : Nat) : List (PollEvent F) × Option String :=
  match pollOnce ops intBits dev (env 0) with
  | (Result.panic msg, log) => ([PollEvent.cycle (Result.panic msg) log], some msg)
  | r =>
    let f := if dev.Freq = 0 then Minute else dev.Freq
    if f ≤ 0 then (cycleEvents dev r, some "non-positive interval for NewTicker")
    else
      let rest := pollLoop ops intBits dev env 1 ticks
      (cycleEvents dev r ++ PollEvent.newTicker f :: rest.1, rest.2)

/-! ## The scanner -/

/-- An advertisement as the scan callback sees it: `device.Address.String()`,
`device.RSSI` and `device.LocalName()`. -/
structure ScanResult where
  Address : String
  RSSI : Int
  LocalName : List Nat
  deriving DecidableEq, Repr

/-- The map `found` of `scan` (its keys) and the lines printed so far. -/
structure ScanState where
  found : List String
  printed : List ScanResult
  deriving DecidableEq, Repr

/-- Function `strings.HasPrefix`. -/
def HasPrefix (s pre : List Nat) : Bool := pre.isPrefixOf s

/-- The callback that `scan` passes to `adapter.Scan`, run on one advertisement. -/
def scanCallback (st : ScanState) (device : ScanResult) : ScanState :=
  if device.Address ∈ st.found then st
  else if HasPrefix device.LocalName (runes "C T") then
    { found := device.Address :: st.found, printed := st.printed ++ [device] }
  else st

/-- One scan session: the callback run on each advertisement in turn, from the
empty map. -/
def scanSession (advs : List ScanResult) : ScanState :=
  advs.foldl scanCallback { found := [], printed := [] }

/-! ## Vocabulary of the statements -/

/-- The value of a string of decimal digits. -/
def digitsValue (ds : List Nat) : Nat := ds.foldl (fun n c => n * 10 + (c - 48)) 0

/-- The decimal text of a natural number, without leading zeros. -/
def natDecimal (n : Nat) : List Nat :=
  if n = 0 then [48] else (Nat.digits 10 n).reverse.map (fun x => x + 48)

/-- The decimal text of an integer, as `strconv.Itoa` writes it: a minus sign for a
negative number, then the digits. -/
def decimal (N : Int) : List Nat :=
  if N < 0 then 45 :: natDecimal N.natAbs else natDecimal N.natAbs

/-- What `parseInt` returns once the literal text of a template is matched and
`body` is left: the verdict of `scanInt` on `body`. -/
def verdict (b : Nat) (body : List Nat) : Int × Bool :=
  match SkipSpace body with
  | none => (0, false)
  | some inp2 =>
    match scanInt b inp2 with
    | none => (0, false)
    | some (v, _) => (v, true)

/-- A blank: a space other than the newline. -/
def isBlank (r : Nat) : Bool := isSpace r && r != 10

/-- A literal text made of runes that are no space and no percent sign, and of
single spaces `' '`, none next to another. -/
def plain : List Nat → Bool
  | [] => true
  | c :: l =>
    (c != 37) &&
    (if c = 32 then (match l with
      | [] => true
      | c2 :: _ => !isSpace c2) else !isSpace c) &&
    plain l

/-- The relation `LitMatch lit inp rest`: the text `inp` is the literal text `lit`,
each space of `lit` standing for one or more blanks, followed by `rest`. -/
inductive LitMatch : List Nat → List Nat → List Nat → Prop where
  | done (rest : List Nat) : LitMatch [] rest rest
  | rune (c : Nat) (l inp rest : List Nat) (hc : isSpace c = false)
      (h : LitMatch l inp rest) : LitMatch (c :: l) (c :: inp) rest
  | blanks (l : List Nat) (s : Nat) (run inp rest : List Nat) (hs : isBlank s = true)
      (hrun : ∀ x ∈ run, isBlank x = true) (h : LitMatch l inp rest) :
      LitMatch (32 :: l) (s :: (run ++ inp)) rest

/-- The text `body` starts with a decimal number of value `d`: an optional sign,
one or more digits (all the digits found there), within the range of an `int` of
`intBits` bits. -/
def IsNumber (intBits : Nat) (body : List Nat) (d : Int) : Prop :=
  ∃ sgn ds tail : List Nat, body = sgn ++ (ds ++ tail) ∧
    (sgn = [] ∨ sgn = [43] ∨ sgn = [45]) ∧ ds ≠ [] ∧ (∀ c ∈ ds, isDigit c = true) ∧
    (∀ c, tail.head? = some c → isDigit c = false) ∧
    d = (if sgn = [45] then -(digitsValue ds : Int) else (digitsValue ds : Int)) ∧
    -(2 ^ (intBits - 1) : Int) ≤ d ∧ d < 2 ^ (intBits - 1)

/-- The text `inp` matches a template with literal text `lit` and gives `d`: the
literal text, each of its spaces standing for one or more blanks, then at once a
number of value `d`; what follows the number is free. -/
def Matches (intBits : Nat) (lit inp : List Nat) (d : Int) : Prop :=
  ∃ body, LitMatch lit inp body ∧ IsNumber intBits body d

/-- The invariant of a scan session: printed addresses are pairwise distinct, are
all in `found`, and every printed advertisement carries the prefix. -/
def ScanInv (st : ScanState) : Prop :=
  (st.printed.map ScanResult.Address).Nodup ∧
  (∀ r ∈ st.printed, r.Address ∈ st.found) ∧
  (∀ r ∈ st.printed, HasPrefix r.LocalName (runes "C T") = true)

/-! ## Sample inputs -/

/-- A device descriptor with no interval configured. -/
def sensor1 : Device :=
  { Name := "sensor1", Address := "AA:BB", Disp := "", Orig := "", Freq := 0 }

/-- A device descriptor whose configured interval is negative (minus one second). -/
def backwards : Device :=
  { Name := "sensor1", Address := "AA:BB", Disp := "", Orig := "", Freq := -1000000000 }

/-- A transport on which the connection is made and service discovery fails. -/
def discoveryFails : Transport ℚ :=
  { connect := none, elapsed := 1 / 4, services := .error "timeout on DiscoverServices",
    disconnect := none }

/-- A transport on which service discovery returns no service and no error. -/
def noService : Transport ℚ :=
  { connect := none, elapsed := 1 / 4, services := .ok [], disconnect := none }

/-- A transport on which characteristic discovery returns one characteristic and
no error. -/
def oneCharacteristic : Transport ℚ :=
  { connect := none, elapsed := 1 / 4,
    services := Except.ok [Service.mk (Except.ok [Characteristic.mk none [] []])],
    disconnect := none }

/-- A transport on which every step succeeds and the two replies arrive, the
battery reply during the pacing delay. -/
def bothReplies : Transport ℚ :=
  { connect := none, elapsed := 1 / 4,
    services := Except.ok [Service.mk (Except.ok
      [Characteristic.mk none [runes "Battery voltage (mV): 3300"]
         [runes "Temperature value (0.01 degC): 2500"],
       Characteristic.mk none [] []])],
    disconnect := none }

/-- A transport on which the connection cannot be made (`float64` values). -/
def refused : Transport Float64 :=
  { connect := some "timeout on Connect", elapsed := ⟨0, 0⟩, services := .ok [],
    disconnect := none }

/-- A transport on which every step succeeds and the replies 3300 and 2500 arrive,
the battery reply during the pacing delay (`float64` values). -/
def twoReplies : Transport Float64 :=
  { connect := none, elapsed := Float64.ofInt 1,
    services := Except.ok [Service.mk (Except.ok
      [Characteristic.mk none [runes "Battery voltage (mV): 3300"]
         [runes "Temperature value (0.01 degC): 2500"],
       Characteristic.mk none [] []])],
    disconnect := none }

/-- A transport on which every step succeeds and the battery reply carries
`2 ^ 53 + 1` (`float64` values). -/
def largeBattery : Transport Float64 :=
  { connect := none, elapsed := Float64.ofInt 1,
    services := Except.ok [Service.mk (Except.ok
      [Characteristic.mk none [runes "Battery voltage (mV): 9007199254740993"]
         [runes "Temperature value (0.01 degC): 2500"],
       Characteristic.mk none [] []])],
    disconnect := none }

/-! ## Digits and `scanInt` -/

theorem isSpace_of_digit {c : Nat} (h : isDigit c = true) : isSpace c = false := by
  simp only [isDigit, Bool.and_eq_true, decide_eq_true_eq] at h
  simp only [isSpace, Bool.or_eq_false_iff, Bool.and_eq_false_iff, beq_eq_false_iff_ne,
    decide_eq_false_iff_not]
  omega

theorem SkipSpace_of_not_space {c : Nat} (tl : List Nat) (h : isSpace c = false) :
    SkipSpace (c :: tl) = some (c :: tl) := by
  have h13 : c ≠ 13 := by rintro rfl; simp [isSpace] at h
  have h10 : c ≠ 10 := by rintro rfl; simp [isSpace] at h
  simp [SkipSpace, h13, h10, h]

theorem foldl_value_ge (ds : List Nat) (acc : Nat) :
    acc ≤ ds.foldl (fun n c => n * 10 + (c - 48)) acc := by
  induction ds generalizing acc with
  | nil => exact Nat.le_refl _
  | cons c t ih =>
    simp only [List.foldl_cons]
    exact Nat.le_trans (by omega) (ih _)

theorem parseUint_loop (ds : List Nat) :
    ∀ acc, (∀ c ∈ ds, isDigit c = true) →
      ds.foldl (fun n c => n * 10 + (c - 48)) acc < 2 ^ 64 →
      ds.foldlM (fun n c =>
        if isDigit c then
          if n ≥ (2 ^ 64 - 1) / 10 + 1 then none
          else
            let n1 := (n * 10 + (c - 48)) % 2 ^ 64
            if n1 < n * 10 then none else some n1
        else none) acc = some (ds.foldl (fun n c => n * 10 + (c - 48)) acc) := by
  induction ds with
  | nil => intro acc _ _; rfl
  | cons c t ih =>
    intro acc hd hlt
    have hc : isDigit c = true := hd c (List.mem_cons_self _ _)
    have ht : ∀ x ∈ t, isDigit x = true := fun x hx => hd x (List.mem_cons_of_mem _ hx)
    simp only [List.foldl_cons] at hlt
    have hstep : acc * 10 + (c - 48) < 2 ^ 64 :=
      Nat.lt_of_le_of_lt (foldl_value_ge t _) hlt
    have hmod : (acc * 10 + (c - 48)) % 2 ^ 64 = acc * 10 + (c - 48) := Nat.mod_eq_of_lt hstep
    have hcut : ¬ acc ≥ (2 ^ 64 - 1) / 10 + 1 := by
      norm_num at hstep ⊢
      omega
    have hge : ¬ acc * 10 + (c - 48) < acc * 10 := by omega
    simp only [List.foldlM_cons, hc, if_true, hcut, if_false, hmod, hge, List.foldl_cons]
    exact ih _ ht hlt

theorem ParseUint_digits (ds : List Nat) (hne : ds ≠ []) (hd : ∀ c ∈ ds, isDigit c = true)
    (hlt : digitsValue ds < 2 ^ 64) : ParseUint ds = some (digitsValue ds) := by
  unfold ParseUint
  rw [if_neg hne]
  exact parseUint_loop ds 0 hd hlt

theorem takeWhile_digits (ds rest : List Nat) (hd : ∀ c ∈ ds, isDigit c = true)
    (hr : ∀ c, rest.head? = some c → isDigit c = false) :
    (ds ++ rest).takeWhile isDigit = ds ∧ (ds ++ rest).dropWhile isDigit = rest := by
  induction ds with
  | nil =>
    cases rest with
    | nil => simp
    | cons c t => simp [List.takeWhile, List.dropWhile, hr c rfl]
  | cons c t ih =>
    have hc : isDigit c = true := hd c (List.mem_cons_self _ _)
    have ih1 := ih (fun x hx => hd x (List.mem_cons_of_mem _ hx))
    simp [List.takeWhile, List.dropWhile, hc, ih1.1, ih1.2]

theorem signExtend_of_range (b : Nat) (hb : b = 32 ∨ b = 64) (v : Int)
    (hlo : -(2 ^ (b - 1) : Int) ≤ v) (hhi : v < 2 ^ (b - 1)) : signExtend b v = v := by
  unfold signExtend
  rcases hb with rfl | rfl
  · norm_num at hlo hhi ⊢
    rw [Int.emod_eq_of_lt (by omega) (by omega)]
    omega
  · norm_num at hlo hhi ⊢
    rw [Int.emod_eq_of_lt (by omega) (by omega)]
    omega

/-- Method `scanInt` on an unsigned digit string followed by a non-digit. -/
theorem scanInt_digits (b : Nat) (hb : b = 32 ∨ b = 64) (ds rest : List Nat) (hne : ds ≠ [])
    (hd : ∀ c ∈ ds, isDigit c = true) (hr : ∀ c, rest.head? = some c → isDigit c = false)
    (hv : (digitsValue ds : Int) < 2 ^ (b - 1)) :
    scanInt b (ds ++ rest) = some ((digitsValue ds : Int), rest) := by
  obtain ⟨c, t, rfl⟩ := List.exists_cons_of_ne_nil hne
  have hc : isDigit c = true := hd c (List.mem_cons_self _ _)
  have hc43 : c ≠ 43 := by rintro rfl; simp [isDigit] at hc
  have hc45 : c ≠ 45 := by rintro rfl; simp [isDigit] at hc
  have htw := takeWhile_digits (c :: t) rest hd hr
  have h64 : digitsValue (c :: t) < 2 ^ 63 := by
    rcases hb with rfl | rfl
    · norm_num at hv ⊢; omega
    · norm_num at hv ⊢; omega
  have hpu := ParseUint_digits (c :: t) hne hd (by omega)
  have hse := signExtend_of_range b hb (digitsValue (c :: t))
    (by have : (0 : Int) ≤ 2 ^ (b - 1) := by positivity
        omega) hv
  have hnot : ¬ 9223372036854775808 ≤ digitsValue (c :: t) := by
    norm_num at h64; omega
  simp only [List.cons_append] at htw ⊢
  simp [scanInt, SkipSpace_of_not_space _ (isSpace_of_digit hc), hc43, hc45, hc, htw.1, htw.2,
    ParseInt, hpu, hse, hnot]

/-- Method `scanInt` on a minus sign, a digit string and a non-digit. -/
theorem scanInt_minus_digits (b : Nat) (hb : b = 32 ∨ b = 64) (ds rest : List Nat)
    (hne : ds ≠ []) (hd : ∀ c ∈ ds, isDigit c = true)
    (hr : ∀ c, rest.head? = some c → isDigit c = false)
    (hv : (digitsValue ds : Int) ≤ 2 ^ (b - 1)) :
    scanInt b (45 :: ds ++ rest) = some (-(digitsValue ds : Int), rest) := by
  obtain ⟨c, t, rfl⟩ := List.exists_cons_of_ne_nil hne
  have hc : isDigit c = true := hd c (List.mem_cons_self _ _)
  have htw := takeWhile_digits (c :: t) rest hd hr
  have h64 : digitsValue (c :: t) ≤ 2 ^ 63 := by
    rcases hb with rfl | rfl
    · norm_num at hv ⊢; omega
    · norm_num at hv ⊢; omega
  have hpu := ParseUint_digits (c :: t) hne hd (by omega)
  have hse := signExtend_of_range b hb (-(digitsValue (c :: t) : Int)) (by omega)
    (by have : (0 : Int) < 2 ^ (b - 1) := by positivity
        omega)
  have hnot : ¬ 9223372036854775808 < digitsValue (c :: t) := by
    norm_num at h64; omega
  have h45 : isSpace 45 = false := by decide
  simp only [List.cons_append] at htw ⊢
  simp [scanInt, SkipSpace_of_not_space _ h45, hc, htw.1, htw.2, ParseInt, hpu, hse, hnot]

theorem natDecimal_ne_nil (n : Nat) : natDecimal n ≠ [] := by
  unfold natDecimal
  split
  · simp
  · next h => simpa [Nat.digits_ne_nil_iff_ne_zero] using h

theorem natDecimal_digits (n : Nat) : ∀ c ∈ natDecimal n, isDigit c = true := by
  intro c hc
  unfold natDecimal at hc
  split at hc
  · simp at hc; subst hc; decide
  · simp only [List.mem_map, List.mem_reverse] at hc
    obtain ⟨x, hx, rfl⟩ := hc
    have := Nat.digits_lt_base (by decide : 1 < 10) hx
    simp only [isDigit, Bool.and_eq_true, decide_eq_true_eq]
    omega

theorem digitsValue_natDecimal (n : Nat) : digitsValue (natDecimal n) = n := by
  unfold natDecimal digitsValue
  split
  · next h => subst h; rfl
  · rw [List.foldl_map, List.foldl_reverse]
    simp only [Nat.add_sub_cancel]
    have key : ∀ L : List Nat, L.foldr (fun x y => y * 10 + x) 0 = Nat.ofDigits 10 L := by
      intro L
      induction L with
      | nil => rfl
      | cons a t ih => simp [Nat.ofDigits_cons, ih]; ring
    rw [key, Nat.ofDigits_digits]

/-- Method `scanInt` reads back the decimal text of every integer in `int` range,
stopping at the first rune that is not a digit. -/
theorem scanInt_decimal (b : Nat) (hb : b = 32 ∨ b = 64) (N : Int) (rest : List Nat)
    (hr : ∀ c, rest.head? = some c → isDigit c = false)
    (hlo : -(2 ^ (b - 1) : Int) ≤ N) (hhi : N < 2 ^ (b - 1)) :
    scanInt b (decimal N ++ rest) = some (N, rest) := by
  unfold decimal
  by_cases hneg : N < 0
  · rw [if_pos hneg]
    have hv : ((digitsValue (natDecimal N.natAbs) : Nat) : Int) = -N := by
      rw [digitsValue_natDecimal]; omega
    have := scanInt_minus_digits b hb (natDecimal N.natAbs) rest (natDecimal_ne_nil _)
      (natDecimal_digits _) hr (by rw [hv]; omega)
    rw [hv] at this
    simpa using this
  · rw [if_neg hneg]
    have hv : ((digitsValue (natDecimal N.natAbs) : Nat) : Int) = N := by
      rw [digitsValue_natDecimal]; omega
    have := scanInt_digits b hb (natDecimal N.natAbs) rest (natDecimal_ne_nil _)
      (natDecimal_digits _) hr (by rw [hv]; exact hhi)
    rw [hv] at this
    exact this

theorem natDecimal_length (n : Nat) (hn : n ≤ 2 ^ 64) : (natDecimal n).length ≤ 21 := by
  unfold natDecimal
  split
  · simp
  · next h0 =>
    rw [List.length_map, List.length_reverse]
    by_contra hlen
    have h1 : 10 ^ 22 ≤ 10 ^ (Nat.digits 10 n).length :=
      Nat.pow_le_pow_right (by decide) (by omega)
    have h2 := Nat.base_pow_length_digits_le 10 n (by decide) h0
    norm_num at h1 h2 hn
    omega

theorem decimal_length (b : Nat) (hb : b = 32 ∨ b = 64) (N : Int)
    (hlo : -(2 ^ (b - 1) : Int) ≤ N) (hhi : N < 2 ^ (b - 1)) : (decimal N).length ≤ 22 := by
  have habs : N.natAbs ≤ 2 ^ 64 := by
    rcases hb with rfl | rfl
    · norm_num at hlo hhi ⊢; omega
    · norm_num at hlo hhi ⊢; omega
  have := natDecimal_length N.natAbs habs
  unfold decimal
  split
  · simp only [List.length_cons]; omega
  · omega

theorem decimal_head (N : Int) : ∀ c, (decimal N).head? = some c → isSpace c = false := by
  intro c hc
  unfold decimal at hc
  split at hc
  · simp at hc; subst hc; decide
  · have hne := natDecimal_ne_nil N.natAbs
    obtain ⟨x, t, hx⟩ := List.exists_cons_of_ne_nil hne
    rw [hx] at hc
    simp at hc
    subst hc
    exact isSpace_of_digit (natDecimal_digits N.natAbs x (by rw [hx]; exact List.mem_cons_self _ _))

theorem decimal_ne_nil (N : Int) : decimal N ≠ [] := by
  unfold decimal
  split
  · simp
  · exact natDecimal_ne_nil _

theorem decimal_3300 : decimal 3300 = runes "3300" := by
  have h : Nat.digits 10 3300 = [0, 0, 3, 3] := by norm_num
  have h2 : (3300 : Int).natAbs = 3300 := rfl
  unfold decimal natDecimal
  rw [h2, h]
  decide

theorem decimal_2500 : decimal 2500 = runes "2500" := by
  have h : Nat.digits 10 2500 = [0, 0, 5, 2] := by norm_num
  have h2 : (2500 : Int).natAbs = 2500 := rfl
  unfold decimal natDecimal
  rw [h2, h]
  decide

/-! ## The templates, rune by rune -/

theorem batteryLiteral_eq : batteryLiteral =
    [66, 97, 116, 116, 101, 114, 121, 32, 118, 111, 108, 116, 97, 103, 101, 32,
     40, 109, 86, 41, 58, 32] := by decide

theorem batteryFormat_eq : batteryFormat = batteryLiteral ++ [37, 100] := by decide

theorem tempLiteral_eq : tempLiteral =
    [84, 101, 109, 112, 101, 114, 97, 116, 117, 114, 101, 32, 118, 97, 108, 117, 101, 32,
     40, 48, 46, 48, 49, 32, 100, 101, 103, 67, 41, 58, 32] := by decide

theorem tempFormat_eq : tempFormat = tempLiteral ++ [37, 100] := by decide

/-! ## Stepping `advance` -/

section

seal isSpace

theorem advance_nil (pend : Option (Nat × Bool)) (i : Nat) (inp : List Nat) :
    advance pend i [] inp =
      match flushSpace pend inp with
      | none => Adv.err
      | some inp1 => Adv.stop i inp1 := by
  rw [advance]

theorem advance_cons (pend : Option (Nat × Bool)) (i c : Nat) (f inp : List Nat) :
    advance pend i (c :: f) inp =
    if isSpace c then
      advance (some (if c = 10 then ((pend.getD (0, false)).1 + 1, false)
                     else ((pend.getD (0, false)).1, true))) (i + 1) f inp
    else
      match flushSpace pend inp with
      | none => .err
      | some inp1 =>
        if c = 37 then
          match f with
          | [] => .err
          | n :: f1 =>
            if n ≠ 37 then .stop i inp1
            else
              match inp1 with
              | [] => .err
              | r :: rest => if r = 37 then advance none (i + 2) f1 rest else .mismatch inp1
        else
          match inp1 with
          | [] => .err
          | r :: rest => if r = c then advance none (i + 1) f rest else .mismatch inp1 := by
  rw [advance]

end

theorem skipBlanks_of_not_space {c : Nat} (tl : List Nat) (h : isSpace c = false) :
    skipBlanks (c :: tl) = c :: tl := by
  simp [skipBlanks, h]

theorem skipBlanks_blank (tl : List Nat) : skipBlanks (32 :: tl) = skipBlanks tl := by
  simp [skipBlanks, isSpace]

theorem matchTrailing_blank (tl : List Nat) :
    matchTrailing 0 (32 :: tl) = some (skipBlanks tl) := by
  simp [matchTrailing, isSpace, skipBlanks]

theorem matchTrailing_of_not_space {c : Nat} (tl : List Nat) (h : isSpace c = false) :
    matchTrailing 0 (c :: tl) = none := by
  simp [matchTrailing, h]

theorem advance_lit {c : Nat} (i : Nat) (f : List Nat) (r : Nat) (inp : List Nat)
    (hs : isSpace c = false) (hp : c ≠ 37) :
    advance none i (c :: f) (r :: inp) =
      if r = c then advance none (i + 1) f inp else Adv.mismatch (r :: inp) := by
  rw [advance_cons]
  simp [hs, hp, flushSpace]

theorem advance_lit_nil {c : Nat} (i : Nat) (f : List Nat)
    (hs : isSpace c = false) (hp : c ≠ 37) :
    advance none i (c :: f) [] = Adv.err := by
  rw [advance_cons]
  simp [hs, hp, flushSpace]

theorem advance_blank (i : Nat) (f inp : List Nat) :
    advance none i (32 :: f) inp = advance (some (0, true)) (i + 1) f inp := by
  rw [advance_cons]
  simp [isSpace]

theorem advance_pend_lit {c : Nat} (i : Nat) (f inp : List Nat)
    (hs : isSpace c = false) (hp : c ≠ 37) :
    advance (some (0, true)) i (c :: f) inp =
      match matchTrailing 0 inp with
      | none => Adv.err
      | some [] => Adv.err
      | some (r :: rest) =>
        if r = c then advance none (i + 1) f rest else Adv.mismatch (r :: rest) := by
  rw [advance_cons]
  simp only [hs, hp, flushSpace, matchNewlines]
  cases matchTrailing 0 inp with
  | none => simp
  | some inp1 => cases inp1 <;> simp

theorem advance_pend_verb (i : Nat) (inp : List Nat) :
    advance (some (0, true)) i [37, 100] inp =
      match matchTrailing 0 inp with
      | none => Adv.err
      | some inp1 => Adv.stop i inp1 := by
  rw [advance_cons]
  simp only [flushSpace, matchNewlines]
  cases matchTrailing 0 inp <;> simp [isSpace]

/-- The literal of the battery template matches itself, up to a continuation that
does not start with a space. -/
theorem advance_battery (body : List Nat)
    (hbody : ∀ c, body.head? = some c → isSpace c = false) :
    advance none 0 batteryFormat (batteryLiteral ++ body) = Adv.stop 22 body := by
  rw [batteryFormat_eq, batteryLiteral_eq]
  have hsk : skipBlanks body = body := by
    cases body with
    | nil => rfl
    | cons c tl => exact skipBlanks_of_not_space tl (hbody c rfl)
  simp [advance_cons, advance_nil, flushSpace, matchNewlines, matchTrailing, skipBlanks,
    isSpace, hsk]

theorem advance_temp (body : List Nat)
    (hbody : ∀ c, body.head? = some c → isSpace c = false) :
    advance none 0 tempFormat (tempLiteral ++ body) = Adv.stop 31 body := by
  rw [tempFormat_eq, tempLiteral_eq]
  have hsk : skipBlanks body = body := by
    cases body with
    | nil => rfl
    | cons c tl => exact skipBlanks_of_not_space tl (hbody c rfl)
  simp [advance_cons, advance_nil, flushSpace, matchNewlines, matchTrailing, skipBlanks,
    isSpace, hsk]

theorem take_append_cons (n : Nat) (p : List Nat) (x : Nat) (rest : List Nat)
    (h : p.length < n) :
    (p ++ x :: rest).take n = p ++ x :: rest.take (n - p.length - 1) := by
  rw [List.take_append_eq_append_take, List.take_of_length_le (Nat.le_of_lt h)]
  obtain ⟨m, hm⟩ : ∃ m, n - p.length = m + 1 := ⟨n - p.length - 1, by omega⟩
  rw [hm, List.take_succ_cons, Nat.add_sub_cancel]

theorem head?_take_some (m : Nat) (l : List Nat) (c : Nat)
    (h : (l.take m).head? = some c) : l.head? = some c := by
  cases l with
  | nil => simp at h
  | cons a t =>
    cases m with
    | zero => simp at h
    | succ m => simpa using h

theorem template_length_lt (lit fmt : List Nat)
    (hfmt : (lit = batteryLiteral ∧ fmt = batteryFormat) ∨ (lit = tempLiteral ∧ fmt = tempFormat)) :
    lit.length < hugeWid := by
  rcases hfmt with ⟨rfl, _⟩ | ⟨rfl, _⟩ <;> decide

/-- The literal text of a template matches itself, up to a continuation that does
not start with a space. -/
theorem advance_template (lit fmt body : List Nat)
    (hfmt : (lit = batteryLiteral ∧ fmt = batteryFormat) ∨ (lit = tempLiteral ∧ fmt = tempFormat))
    (hbody : ∀ c, body.head? = some c → isSpace c = false) :
    advance none 0 fmt (lit ++ body) = Adv.stop lit.length body := by
  rcases hfmt with ⟨rfl, rfl⟩ | ⟨rfl, rfl⟩
  · exact advance_battery body hbody
  · exact advance_temp body hbody

/-! ## Stepping `doScanf` -/

/-- One round of `doScanf` on a format that does not start with a verb. -/
theorem doScanf_literal (b fuel c0 : Nat) (f inp : List Nat) (np : Nat) (d : Int)
    (h0 : c0 ≠ 37) :
    doScanf b (fuel + 1) (c0 :: f) inp np d =
      match advance none 0 (c0 :: f) inp with
      | Adv.err => (np, false, d)
      | Adv.mismatch _ => (np, false, d)
      | Adv.stop 0 _ => (np, decide (1 ≤ np), d)
      | Adv.stop (w + 1) inp1 => doScanf b fuel ((c0 :: f).drop (w + 1)) inp1 np d := by
  rw [doScanf]
  cases advance none 0 (c0 :: f) inp with
  | err => rfl
  | mismatch i1 => simp [h0]
  | stop w i1 =>
    cases w with
    | zero => simp [h0]
    | succ w => rfl

/-- The round of `doScanf` on the verb `d` that ends a format, for the first operand. -/
theorem doScanf_verb (b fuel : Nat) (body : List Nat) :
    doScanf b (fuel + 2) [37, 100] body 0 0 =
      match SkipSpace body with
      | none => (0, false, 0)
      | some inp2 =>
        match scanInt b inp2 with
        | none => (0, false, 0)
        | some (v, _) => (1, true, v) := by
  rw [doScanf]
  have hadv : advance none 0 [37, 100] body = Adv.stop 0 body := by
    rw [advance_cons]; simp [isSpace, flushSpace]
  simp only [hadv]
  cases SkipSpace body with
  | none => simp
  | some inp2 =>
    cases hsi : scanInt b inp2 with
    | none => simp [hsi]
    | some r =>
      obtain ⟨v, inp3⟩ := r
      simp [hsi, doScanf]

/-- The fuel of `doScanf` is never used up: any two amounts above the format's
length give the same result. -/
theorem doScanf_fuel (b : Nat) : ∀ (fuel1 fuel2 : Nat) (format inp : List Nat) (np : Nat)
    (d : Int), format.length < fuel1 → format.length < fuel2 →
    doScanf b fuel1 format inp np d = doScanf b fuel2 format inp np d := by
  intro fuel1
  induction fuel1 with
  | zero => intro _ _ _ _ _ h; omega
  | succ n ih =>
    intro fuel2 format inp np d h1 h2
    cases fuel2 with
    | zero => omega
    | succ m =>
      cases format with
      | nil => simp [doScanf]
      | cons c0 f =>
        simp only [List.length_cons] at h1 h2
        rw [doScanf, doScanf]
        cases hadv : advance none 0 (c0 :: f) inp with
        | err => rfl
        | mismatch i1 =>
          cases f with
          | nil => rfl
          | cons c f1 =>
            simp only [List.length_cons] at h1 h2
            have kf : ∀ inp1 np1 d1, doScanf b n f1 inp1 np1 d1 = doScanf b m f1 inp1 np1 d1 :=
              fun inp1 np1 d1 => ih m f1 inp1 np1 d1 (by omega) (by omega)
            simp only [List.drop_succ_cons, List.drop_zero, kf]
        | stop w i1 =>
          cases w with
          | zero =>
            cases f with
            | nil => rfl
            | cons c f1 =>
              simp only [List.length_cons] at h1 h2
              have kf : ∀ inp1 np1 d1, doScanf b n f1 inp1 np1 d1 = doScanf b m f1 inp1 np1 d1 :=
                fun inp1 np1 d1 => ih m f1 inp1 np1 d1 (by omega) (by omega)
              simp only [List.drop_succ_cons, List.drop_zero, kf]
          | succ w =>
            have hlen : ((c0 :: f).drop (w + 1)).length < n ∧
                ((c0 :: f).drop (w + 1)).length < m := by
              rw [List.length_drop, List.length_cons]; omega
            exact ih m _ i1 np d hlen.1 hlen.2

/-! ## `parseInt` on the two templates -/

theorem parseInt_of_stop (b : Nat) (lit fmt input body : List Nat)
    (hfmt : (lit = batteryLiteral ∧ fmt = batteryFormat) ∨ (lit = tempLiteral ∧ fmt = tempFormat))
    (hadv : advance none 0 fmt (input.take hugeWid) = Adv.stop lit.length body) :
    parseInt b input fmt = verdict b body := by
  unfold parseInt Sscanf verdict
  rcases hfmt with ⟨rfl, rfl⟩ | ⟨rfl, rfl⟩
  · rw [batteryFormat_eq, batteryLiteral_eq] at hadv ⊢
    simp only [List.cons_append, List.nil_append, List.length_cons, List.length_nil] at hadv ⊢
    rw [doScanf_literal _ _ _ _ _ _ _ (by decide), hadv]
    simp only [List.drop_succ_cons, List.drop_zero]
    rw [doScanf_verb]
    cases SkipSpace body with
    | none => simp
    | some inp2 =>
      cases hsi : scanInt b inp2 with
      | none => simp [hsi]
      | some r => simp [hsi]
  · rw [tempFormat_eq, tempLiteral_eq] at hadv ⊢
    simp only [List.cons_append, List.nil_append, List.length_cons, List.length_nil] at hadv ⊢
    rw [doScanf_literal _ _ _ _ _ _ _ (by decide), hadv]
    simp only [List.drop_succ_cons, List.drop_zero]
    rw [doScanf_verb]
    cases SkipSpace body with
    | none => simp
    | some inp2 =>
      cases hsi : scanInt b inp2 with
      | none => simp [hsi]
      | some r => simp [hsi]

theorem parseInt_of_no_stop (b : Nat) (lit fmt input : List Nat)
    (hfmt : (lit = batteryLiteral ∧ fmt = batteryFormat) ∨ (lit = tempLiteral ∧ fmt = tempFormat))
    (hadv : ∀ w inp1, advance none 0 fmt (input.take hugeWid) ≠ Adv.stop w inp1) :
    parseInt b input fmt = (0, false) := by
  unfold parseInt Sscanf
  rcases hfmt with ⟨rfl, rfl⟩ | ⟨rfl, rfl⟩
  · rw [batteryFormat_eq, batteryLiteral_eq] at hadv ⊢
    simp only [List.cons_append, List.nil_append, List.length_cons, List.length_nil] at hadv ⊢
    rw [doScanf_literal _ _ _ _ _ _ _ (by decide)]
    cases hres : advance none 0 _ (input.take hugeWid) with
    | err => simp
    | mismatch i1 => simp
    | stop w i1 => exact absurd hres (hadv w i1)
  · rw [tempFormat_eq, tempLiteral_eq] at hadv ⊢
    simp only [List.cons_append, List.nil_append, List.length_cons, List.length_nil] at hadv ⊢
    rw [doScanf_literal _ _ _ _ _ _ _ (by decide)]
    cases hres : advance none 0 _ (input.take hugeWid) with
    | err => simp
    | mismatch i1 => simp
    | stop w i1 => exact absurd hres (hadv w i1)

theorem verdict_decimal (b : Nat) (hb : b = 32 ∨ b = 64) (N : Int) (rest : List Nat)
    (hr : ∀ c, rest.head? = some c → isDigit c = false)
    (hlo : -(2 ^ (b - 1) : Int) ≤ N) (hhi : N < 2 ^ (b - 1)) :
    verdict b (decimal N ++ rest) = (N, true) := by
  obtain ⟨c, t, hct⟩ := List.exists_cons_of_ne_nil (decimal_ne_nil N)
  have hc : isSpace c = false := decimal_head N c (by rw [hct]; rfl)
  have hscan := scanInt_decimal b hb N rest hr hlo hhi
  unfold verdict
  rw [hct, List.cons_append, SkipSpace_of_not_space _ hc, ← List.cons_append, ← hct]
  simp only [hscan]

/-- On the literal text of a template, the decimal text of an integer in `int`
range and any text that does not start with a digit, `parseInt` returns that
integer. -/
theorem parseInt_reply_then (b : Nat) (hb : b = 32 ∨ b = 64) (lit fmt : List Nat)
    (hfmt : (lit = batteryLiteral ∧ fmt = batteryFormat) ∨ (lit = tempLiteral ∧ fmt = tempFormat))
    (N : Int) (hlo : -(2 ^ (b - 1) : Int) ≤ N) (hhi : N < 2 ^ (b - 1)) (rest : List Nat)
    (hr : ∀ c, rest.head? = some c → isDigit c = false) :
    parseInt b (lit ++ (decimal N ++ rest)) fmt = (N, true) := by
  have hlen : (lit ++ decimal N).length ≤ hugeWid := by
    have h1 := decimal_length b hb N hlo hhi
    have h2 : lit.length ≤ 31 := by
      rcases hfmt with ⟨rfl, _⟩ | ⟨rfl, _⟩ <;> decide
    rw [List.length_append]
    have : (53 : Nat) ≤ hugeWid := by decide
    omega
  have htake : (lit ++ (decimal N ++ rest)).take hugeWid =
      lit ++ (decimal N ++ rest.take (hugeWid - (lit ++ decimal N).length)) := by
    rw [← List.append_assoc, List.take_append_eq_append_take, List.take_of_length_le hlen,
      List.append_assoc]
  have hhead : ∀ c, (decimal N ++ rest.take (hugeWid - (lit ++ decimal N).length)).head? =
      some c → isSpace c = false := by
    intro c hc
    obtain ⟨x, t, hx⟩ := List.exists_cons_of_ne_nil (decimal_ne_nil N)
    rw [hx, List.cons_append] at hc
    exact decimal_head N c (by rw [hx]; exact hc)
  have hadv := advance_template lit fmt _ hfmt hhead
  rw [parseInt_of_stop b lit fmt _ _ hfmt (by rw [htake]; exact hadv)]
  exact verdict_decimal b hb N _ (fun c hc => hr c (head?_take_some _ _ _ hc)) hlo hhi

/-- On the literal text of a template followed by the decimal text of an integer
in `int` range, `parseInt` returns that integer. -/
theorem parseInt_reply (b : Nat) (hb : b = 32 ∨ b = 64) (lit fmt : List Nat)
    (hfmt : (lit = batteryLiteral ∧ fmt = batteryFormat) ∨ (lit = tempLiteral ∧ fmt = tempFormat))
    (N : Int) (hlo : -(2 ^ (b - 1) : Int) ≤ N) (hhi : N < 2 ^ (b - 1)) :
    parseInt b (lit ++ decimal N) fmt = (N, true) := by
  have h := parseInt_reply_then b hb lit fmt hfmt N hlo hhi [] (by simp)
  rwa [List.append_nil] at h

/-! ## `float64` values -/

/-- The constant is the `float64` nearest to `18/1000`: it is off by less than half
a unit of its last place, `2 ^ (-59)`. -/
theorem c0018_nearest : |(18 : ℚ) / 1000 - Float64.c0018.toRat| < 1 / 2 ^ 59 := by
  norm_num [Float64.c0018, Float64.toRat, abs_lt]

theorem bitLength_le (k : Nat) : ∀ fuel a, a < 2 ^ k → bitLength fuel a ≤ k := by
  induction k with
  | zero =>
    intro fuel a h
    have : a = 0 := by simpa using h
    subst this
    cases fuel <;> simp [bitLength]
  | succ k ih =>
    intro fuel a h
    cases fuel with
    | zero => simp [bitLength]
    | succ fuel =>
      unfold bitLength
      split
      · omega
      · have := ih fuel (a / 2) (by rw [Nat.pow_succ] at h; omega)
        omega

/-- The conversion `float64(d)` is exact for `|d| ≤ 2 ^ 53`. -/
theorem toRat_ofInt (d : Int) (h : d.natAbs ≤ 2 ^ 53) : (Float64.ofInt d).toRat = d := by
  by_cases h53 : d.natAbs = 2 ^ 53
  · have : d = 2 ^ 53 ∨ d = -(2 ^ 53) := by omega
    rcases this with rfl | rfl
    · have : Float64.ofInt (2 ^ 53) = ⟨2 ^ 52, 1⟩ := by decide
      rw [this]; norm_num [Float64.toRat]
    · have : Float64.ofInt (-(2 ^ 53)) = ⟨-(2 ^ 52), 1⟩ := by decide
      rw [this]; norm_num [Float64.toRat]
  · have hlt : d.natAbs < 2 ^ 53 := by omega
    have hlen := bitLength_le 53 d.natAbs d.natAbs hlt
    unfold Float64.ofInt Float64.round
    by_cases h0 : d = 0
    · subst h0; simp [Float64.toRat]
    · simp only [h0, if_false, hlen, if_true, Float64.toRat]
      push_cast
      rw [zero_sub, zpow_neg, zpow_natCast]
      field_simp

/-! ## The error of rounding -/

theorem bitLength_zero (fuel : Nat) : bitLength fuel 0 = 0 := by
  cases fuel <;> simp [bitLength]

theorem bitLength_lt : ∀ fuel a, a ≤ fuel → a < 2 ^ bitLength fuel a := by
  intro fuel
  induction fuel with
  | zero => intro a h; simp [bitLength]; omega
  | succ fuel ih =>
    intro a h
    unfold bitLength
    split
    · omega
    · have := ih (a / 2) (by omega)
      rw [Nat.pow_succ]
      omega

theorem bitLength_ge : ∀ fuel a, a ≤ fuel → 0 < a → 2 ^ bitLength fuel a ≤ 2 * a := by
  intro fuel
  induction fuel with
  | zero => intro a h ha; omega
  | succ fuel ih =>
    intro a h ha
    unfold bitLength
    rw [if_neg (by omega)]
    by_cases h2 : a / 2 = 0
    · rw [h2, bitLength_zero]
      simp; omega
    · have := ih (a / 2) (by omega) (by omega)
      rw [Nat.pow_succ]
      omega

/-- The value kept when a number has 53 binary digits at most. -/
theorem round_toRat_small (n e : Int)
    (hlen : bitLength n.natAbs n.natAbs ≤ 53) : (Float64.round n e).toRat = n * 2 ^ e := by
  unfold Float64.round
  by_cases h0 : n = 0
  · subst h0; simp [Float64.toRat]
  · simp only [h0, if_false, hlen, if_true, Float64.toRat]
    push_cast
    rw [zpow_sub₀ (by norm_num), zpow_natCast]
    field_simp
    ring


theorem toRat_mk_rounded (n e : Int) (q1 s : Nat) :
    (Float64.mk
      (if n < 0 then -(((if q1 = 2 ^ 53 then 2 ^ 52 else q1 : Nat)) : Int)
        else (((if q1 = 2 ^ 53 then 2 ^ 52 else q1 : Nat)) : Int))
      (if q1 = 2 ^ 53 then e + (s : Int) + 1 else e + (s : Int))).toRat =
      (if n < 0 then -1 else 1) * (q1 : ℚ) * 2 ^ s * 2 ^ e := by
  by_cases hq : q1 = 2 ^ 53
  · by_cases hn : n < 0
    · simp only [hq, hn, if_true, Float64.toRat]
      push_cast
      rw [zpow_add₀ (by norm_num), zpow_add₀ (by norm_num), zpow_natCast]
      ring
    · simp only [hq, hn, if_true, if_false, Float64.toRat]
      push_cast
      rw [zpow_add₀ (by norm_num), zpow_add₀ (by norm_num), zpow_natCast]
      ring
  · by_cases hn : n < 0
    · simp only [hq, hn, if_true, if_false, Float64.toRat]
      push_cast
      rw [zpow_add₀ (by norm_num), zpow_natCast]
      ring
    · simp only [hq, hn, if_false, Float64.toRat]
      push_cast
      rw [zpow_add₀ (by norm_num), zpow_natCast]
      ring

/-- Rounding picks a neighbour: the mantissa kept is within half a unit of the
digits cut off. -/
theorem round_pick (a s : Nat) (hs : 1 ≤ s) :
    (if 2 ^ (s - 1) < a % 2 ^ s ∨ (a % 2 ^ s = 2 ^ (s - 1) ∧ a / 2 ^ s % 2 = 1)
      then a / 2 ^ s + 1 else a / 2 ^ s) * 2 ^ s ≤ a + 2 ^ (s - 1) ∧
    a ≤ (if 2 ^ (s - 1) < a % 2 ^ s ∨ (a % 2 ^ s = 2 ^ (s - 1) ∧ a / 2 ^ s % 2 = 1)
      then a / 2 ^ s + 1 else a / 2 ^ s) * 2 ^ s + 2 ^ (s - 1) := by
  have h2 : 2 ^ s = 2 * 2 ^ (s - 1) := by
    obtain ⟨k, rfl⟩ : ∃ k, s = k + 1 := ⟨s - 1, by omega⟩
    rw [Nat.pow_succ]; simp; ring
  have hqr : a / 2 ^ s * 2 ^ s + a % 2 ^ s = a := Nat.div_add_mod' a (2 ^ s)
  have hr : a % 2 ^ s < 2 ^ s := Nat.mod_lt _ (by positivity)
  generalize a / 2 ^ s = q at hqr ⊢
  generalize a % 2 ^ s = r at hqr hr ⊢
  rw [h2] at hqr hr ⊢
  generalize 2 ^ (s - 1) = P at hqr hr ⊢
  split
  · next h =>
    rw [Nat.add_mul, Nat.one_mul]
    generalize q * (2 * P) = qT at hqr ⊢
    omega
  · next h =>
    generalize q * (2 * P) = qT at hqr ⊢
    omega

/-- Rounding to `float64` moves a number by at most `2 ^ (-53)` of its size. -/
theorem round_error (n e : Int) :
    |(Float64.round n e).toRat - (n : ℚ) * 2 ^ e| ≤ |(n : ℚ)| * 2 ^ e / 2 ^ 53 := by
  have hpos : (0 : ℚ) < 2 ^ e := by positivity
  by_cases hlen : bitLength n.natAbs n.natAbs ≤ 53
  · rw [round_toRat_small n e hlen, sub_self, abs_zero]
    positivity
  · have h0 : n ≠ 0 := by
      rintro rfl
      simp [bitLength] at hlen
    have hs : 1 ≤ bitLength n.natAbs n.natAbs - 53 := by omega
    have hlt := bitLength_lt n.natAbs n.natAbs (Nat.le_refl _)
    have hge := bitLength_ge n.natAbs n.natAbs (Nat.le_refl _) (by omega)
    have hp := round_pick n.natAbs (bitLength n.natAbs n.natAbs - 53) hs
    unfold Float64.round
    simp only [h0, hlen, if_false]
    rw [toRat_mk_rounded]
    generalize (if 2 ^ (bitLength n.natAbs n.natAbs - 53 - 1) <
              n.natAbs % 2 ^ (bitLength n.natAbs n.natAbs - 53) ∨
            (n.natAbs % 2 ^ (bitLength n.natAbs n.natAbs - 53) =
              2 ^ (bitLength n.natAbs n.natAbs - 53 - 1) ∧
              n.natAbs / 2 ^ (bitLength n.natAbs n.natAbs - 53) % 2 = 1)
            then n.natAbs / 2 ^ (bitLength n.natAbs n.natAbs - 53) + 1
            else n.natAbs / 2 ^ (bitLength n.natAbs n.natAbs - 53)) = q1 at hp ⊢
    obtain ⟨k, hk⟩ : ∃ k, bitLength n.natAbs n.natAbs - 53 = k + 1 :=
      ⟨bitLength n.natAbs n.natAbs - 53 - 1, by omega⟩
    have hlen2 : bitLength n.natAbs n.natAbs = k + 54 := by omega
    rw [hk] at hp ⊢
    rw [hlen2] at hge
    simp only [Nat.add_sub_cancel] at hp
    have hge2 : 2 ^ k * 2 ^ 53 ≤ n.natAbs := by
      have : 2 ^ (k + 54) = 2 * (2 ^ k * 2 ^ 53) := by
        rw [Nat.pow_add]; norm_num; ring
      omega
    have hA : |(n : ℚ)| = (n.natAbs : ℚ) := by
      rw [Nat.cast_natAbs, Int.cast_abs]
    have hnabs : (n : ℚ) = (if n < 0 then -1 else 1) * (n.natAbs : ℚ) := by
      by_cases hn : n < 0
      · have hq : (n : ℚ) < 0 := by exact_mod_cast hn
        simp only [hn, if_true]
        rw [← hA, abs_of_neg hq]; ring
      · have hq : (0 : ℚ) ≤ n := by exact_mod_cast (not_lt.mp hn)
        simp only [hn, if_false]
        rw [← hA, abs_of_nonneg hq]; ring
    have h1 : ((q1 : ℚ)) * 2 ^ (k + 1) ≤ (n.natAbs : ℚ) + 2 ^ k := by exact_mod_cast hp.1
    have h2 : (n.natAbs : ℚ) ≤ (q1 : ℚ) * 2 ^ (k + 1) + 2 ^ k := by exact_mod_cast hp.2
    have h3 : (2 : ℚ) ^ k * 2 ^ 53 ≤ (n.natAbs : ℚ) := by exact_mod_cast hge2
    rw [hA]
    rw [hnabs]
    have hfac : (if n < 0 then (-1 : ℚ) else 1) * (q1 : ℚ) * 2 ^ (k + 1) * 2 ^ e -
        (if n < 0 then (-1 : ℚ) else 1) * (n.natAbs : ℚ) * 2 ^ e =
        (if n < 0 then (-1 : ℚ) else 1) * (((q1 : ℚ) * 2 ^ (k + 1) - (n.natAbs : ℚ)) * 2 ^ e) := by
      ring
    rw [hfac, abs_mul, abs_mul]
    have hsgn : |(if n < 0 then (-1 : ℚ) else 1)| = 1 := by
      split <;> simp
    rw [hsgn, one_mul, abs_of_pos hpos]
    have habs : |(q1 : ℚ) * 2 ^ (k + 1) - (n.natAbs : ℚ)| ≤ 2 ^ k := by
      rw [abs_le]; constructor <;> linarith
    have hk53 : (2 : ℚ) ^ k ≤ (n.natAbs : ℚ) / 2 ^ 53 := by
      rw [le_div_iff₀ (by positivity)]; exact h3
    calc |(q1 : ℚ) * 2 ^ (k + 1) - (n.natAbs : ℚ)| * 2 ^ e
        ≤ 2 ^ k * 2 ^ e := mul_le_mul_of_nonneg_right habs hpos.le
      _ ≤ (n.natAbs : ℚ) / 2 ^ 53 * 2 ^ e := mul_le_mul_of_nonneg_right hk53 hpos.le
      _ = (n.natAbs : ℚ) * 2 ^ e / 2 ^ 53 := by ring

/-- The exact sum, as a rational number. -/
theorem toRat_sum (x y : Float64) :
    ((Float64.sum x y).1 : ℚ) * 2 ^ (Float64.sum x y).2 = x.toRat + y.toRat := by
  unfold Float64.sum Float64.toRat
  simp only
  have hx : x.exp = min x.exp y.exp + ((x.exp - min x.exp y.exp).toNat : Int) := by
    have := min_le_left x.exp y.exp
    omega
  have hy : y.exp = min x.exp y.exp + ((y.exp - min x.exp y.exp).toNat : Int) := by
    have := min_le_right x.exp y.exp
    omega
  generalize (x.exp - min x.exp y.exp).toNat = a at hx
  generalize (y.exp - min x.exp y.exp).toNat = b at hy
  generalize min x.exp y.exp = m at hx hy
  rw [hx, hy]
  push_cast
  rw [zpow_add₀ (by norm_num), zpow_add₀ (by norm_num), zpow_natCast, zpow_natCast]
  ring

theorem toRat_mul_error (x y : Float64) :
    |(Float64.mul x y).toRat - x.toRat * y.toRat| ≤ |x.toRat * y.toRat| / 2 ^ 53 := by
  have h := round_error (x.mant * y.mant) (x.exp + y.exp)
  have e1 : ((x.mant * y.mant : Int) : ℚ) * 2 ^ (x.exp + y.exp) = x.toRat * y.toRat := by
    unfold Float64.toRat
    push_cast
    rw [zpow_add₀ (by norm_num)]
    ring
  have hpos : (0 : ℚ) < 2 ^ (x.exp + y.exp) := by positivity
  have e2 : |((x.mant * y.mant : Int) : ℚ)| * 2 ^ (x.exp + y.exp) = |x.toRat * y.toRat| := by
    rw [← e1, abs_mul, abs_of_pos hpos]
  unfold Float64.mul
  rw [e1, e2] at h
  exact h

theorem toRat_add_error (x y : Float64) :
    |(Float64.add x y).toRat - (x.toRat + y.toRat)| ≤ |x.toRat + y.toRat| / 2 ^ 53 := by
  have h := round_error (Float64.sum x y).1 (Float64.sum x y).2
  have e1 := toRat_sum x y
  have hpos : (0 : ℚ) < 2 ^ (Float64.sum x y).2 := by positivity
  have e2 : |((Float64.sum x y).1 : ℚ)| * 2 ^ (Float64.sum x y).2 = |x.toRat + y.toRat| := by
    rw [← e1, abs_mul, abs_of_pos hpos]
  unfold Float64.add
  rw [e1, e2] at h
  exact h

theorem toRat_fma_error (x y z : Float64) :
    |(Float64.fma x y z).toRat - (x.toRat * y.toRat + z.toRat)| ≤
      |x.toRat * y.toRat + z.toRat| / 2 ^ 53 := by
  have hp : (Float64.mk (x.mant * y.mant) (x.exp + y.exp)).toRat = x.toRat * y.toRat := by
    unfold Float64.toRat
    push_cast
    rw [zpow_add₀ (by norm_num)]
    ring
  have h := round_error (Float64.sum ⟨x.mant * y.mant, x.exp + y.exp⟩ z).1
    (Float64.sum ⟨x.mant * y.mant, x.exp + y.exp⟩ z).2
  have e1 := toRat_sum ⟨x.mant * y.mant, x.exp + y.exp⟩ z
  rw [hp] at e1
  have hpos : (0 : ℚ) < 2 ^ (Float64.sum ⟨x.mant * y.mant, x.exp + y.exp⟩ z).2 := by positivity
  have e2 : |((Float64.sum ⟨x.mant * y.mant, x.exp + y.exp⟩ z).1 : ℚ)| *
      2 ^ (Float64.sum ⟨x.mant * y.mant, x.exp + y.exp⟩ z).2 =
      |x.toRat * y.toRat + z.toRat| := by
    rw [← e1, abs_mul, abs_of_pos hpos]
  unfold Float64.fma
  rw [e1, e2] at h
  exact h

theorem toRat_ofInt_error (d : Int) :
    |(Float64.ofInt d).toRat - (d : ℚ)| ≤ |(d : ℚ)| / 2 ^ 53 := by
  have h := round_error d 0
  simpa [Float64.ofInt] using h

/-- The error of `x * c + 32` computed with a rounded `x`, the rounded constant and
a last rounding, whatever the value `W` that is rounded last, as long as it is
within `E` of the exact product. -/
theorem mulAdd_error_aux (d W V E : ℚ)
    (hW : |W - d * 9 / 500| ≤ E)
    (hV : |V - (W + 32)| ≤ |W + 32| / 2 ^ 53) :
    |V - (d * 9 / 500 + 32)| ≤ (E + |d| * 9 / 500 + 32) / 2 ^ 53 + E := by
  have h1 : |W + 32| ≤ E + |d| * 9 / 500 + 32 := by
    have e : W + 32 = (W - d * 9 / 500) + d * 9 / 500 + 32 := by ring
    have hd : |d * 9 / 500| = |d| * 9 / 500 := by
      rw [abs_div, abs_mul]; norm_num
    calc |W + 32| = |(W - d * 9 / 500) + d * 9 / 500 + 32| := by rw [← e]
      _ ≤ |(W - d * 9 / 500) + d * 9 / 500| + |(32 : ℚ)| := abs_add _ _
      _ ≤ |W - d * 9 / 500| + |d * 9 / 500| + |(32 : ℚ)| := by
          have := abs_add (W - d * 9 / 500) (d * 9 / 500); linarith
      _ ≤ E + |d| * 9 / 500 + 32 := by rw [hd]; norm_num; linarith
  have e : V - (d * 9 / 500 + 32) = (V - (W + 32)) + (W - d * 9 / 500) := by ring
  calc |V - (d * 9 / 500 + 32)| = |(V - (W + 32)) + (W - d * 9 / 500)| := by rw [e]
    _ ≤ |V - (W + 32)| + |W - d * 9 / 500| := abs_add _ _
    _ ≤ |W + 32| / 2 ^ 53 + E := by linarith
    _ ≤ (E + |d| * 9 / 500 + 32) / 2 ^ 53 + E := by
        have : |W + 32| / 2 ^ 53 ≤ (E + |d| * 9 / 500 + 32) / 2 ^ 53 :=
          div_le_div_of_nonneg_right h1 (by positivity)
        linarith

/-- The product of the rounded `x` and the rounded constant, against the exact one. -/
theorem product_error (d X C : ℚ) (hX : |X - d| ≤ |d| / 2 ^ 53)
    (hC : |C - 9 / 500| ≤ 1 / 2 ^ 59) :
    |X * C - d * 9 / 500| ≤ |d| / 2 ^ 53 * (9 / 500 + 1 / 2 ^ 59) + |d| * (1 / 2 ^ 59) ∧
    |X * C| ≤ (|d| + |d| / 2 ^ 53) * (9 / 500 + 1 / 2 ^ 59) := by
  have hD : 0 ≤ |d| := abs_nonneg d
  have hCabs : |C| ≤ 9 / 500 + 1 / 2 ^ 59 := by
    have e : C = (C - 9 / 500) + 9 / 500 := by ring
    calc |C| = |(C - 9 / 500) + 9 / 500| := by rw [← e]
      _ ≤ |C - 9 / 500| + |(9 / 500 : ℚ)| := abs_add _ _
      _ ≤ 9 / 500 + 1 / 2 ^ 59 := by
          rw [abs_of_pos (by norm_num : (0 : ℚ) < 9 / 500)]; linarith
  have hXabs : |X| ≤ |d| + |d| / 2 ^ 53 := by
    have e : X = (X - d) + d := by ring
    calc |X| = |(X - d) + d| := by rw [← e]
      _ ≤ |X - d| + |d| := abs_add _ _
      _ ≤ |d| + |d| / 2 ^ 53 := by linarith
  constructor
  · have e : X * C - d * 9 / 500 = (X - d) * C + d * (C - 9 / 500) := by ring
    calc |X * C - d * 9 / 500| = |(X - d) * C + d * (C - 9 / 500)| := by rw [e]
      _ ≤ |(X - d) * C| + |d * (C - 9 / 500)| := abs_add _ _
      _ = |X - d| * |C| + |d| * |C - 9 / 500| := by rw [abs_mul, abs_mul]
      _ ≤ |d| / 2 ^ 53 * (9 / 500 + 1 / 2 ^ 59) + |d| * (1 / 2 ^ 59) := by
          have h1 : |X - d| * |C| ≤ |d| / 2 ^ 53 * (9 / 500 + 1 / 2 ^ 59) :=
            mul_le_mul hX hCabs (abs_nonneg _) (by positivity)
          have h2 : |d| * |C - 9 / 500| ≤ |d| * (1 / 2 ^ 59) :=
            mul_le_mul_of_nonneg_left hC hD
          linarith
  · rw [abs_mul]
    exact mul_le_mul hXabs hCabs (abs_nonneg _) (by positivity)

/-- The value `V` of `x*c + 32` in `float64`, the product and the sum rounded one
after the other, is within `2 ^ (-51)` of the size of the exact value. -/
theorem unfused_error_bound (d X C P V : ℚ) (hX : |X - d| ≤ |d| / 2 ^ 53)
    (hC : |C - 9 / 500| ≤ 1 / 2 ^ 59) (hP : |P - X * C| ≤ |X * C| / 2 ^ 53)
    (hV : |V - (P + 32)| ≤ |P + 32| / 2 ^ 53) :
    |V - (d * 9 / 500 + 32)| ≤ (|d| * 9 / 500 + 32) / 2 ^ 51 := by
  have hD : 0 ≤ |d| := abs_nonneg d
  obtain ⟨h1, h2⟩ := product_error d X C hX hC
  have hP2 : |P - d * 9 / 500| ≤
      (|d| + |d| / 2 ^ 53) * (9 / 500 + 1 / 2 ^ 59) / 2 ^ 53 +
        (|d| / 2 ^ 53 * (9 / 500 + 1 / 2 ^ 59) + |d| * (1 / 2 ^ 59)) := by
    have e : P - d * 9 / 500 = (P - X * C) + (X * C - d * 9 / 500) := by ring
    have h3 : |X * C| / 2 ^ 53 ≤ (|d| + |d| / 2 ^ 53) * (9 / 500 + 1 / 2 ^ 59) / 2 ^ 53 :=
      div_le_div_of_nonneg_right h2 (by positivity)
    calc |P - d * 9 / 500| = |(P - X * C) + (X * C - d * 9 / 500)| := by rw [e]
      _ ≤ |P - X * C| + |X * C - d * 9 / 500| := abs_add _ _
      _ ≤ _ := by linarith
  have h := mulAdd_error_aux d P V _ hP2 hV
  refine h.trans ?_
  norm_num
  linarith

/-- The same bound when the product and the sum are fused and rounded once. -/
theorem fused_error_bound (d X C V : ℚ) (hX : |X - d| ≤ |d| / 2 ^ 53)
    (hC : |C - 9 / 500| ≤ 1 / 2 ^ 59)
    (hV : |V - (X * C + 32)| ≤ |X * C + 32| / 2 ^ 53) :
    |V - (d * 9 / 500 + 32)| ≤ (|d| * 9 / 500 + 32) / 2 ^ 51 := by
  have hD : 0 ≤ |d| := abs_nonneg d
  obtain ⟨h1, _⟩ := product_error d X C hX hC
  have h := mulAdd_error_aux d (X * C) V _ h1 hV
  refine h.trans ?_
  norm_num
  linarith

theorem c0018_error : |Float64.c0018.toRat - 9 / 500| ≤ 1 / 2 ^ 59 := by
  have h := c0018_nearest
  rw [abs_sub_comm] at h
  have e : (18 : ℚ) / 1000 = 9 / 500 := by norm_num
  rw [e] at h
  exact h.le

/-- The value of `float64(d)*0.018 + 32`, fused or not, is within `2 ^ (-51)` of the
size of `d * 9/500 + 32`. -/
theorem mulAdd_error (fused : Bool) (d : Int) :
    |(if fused then Float64.fma (Float64.ofInt d) Float64.c0018 (Float64.ofInt 32)
        else Float64.add (Float64.mul (Float64.ofInt d) Float64.c0018)
          (Float64.ofInt 32)).toRat - ((d : ℚ) * 9 / 500 + 32)| ≤
      (|(d : ℚ)| * 9 / 500 + 32) / 2 ^ 51 := by
  have h32 : (Float64.ofInt 32).toRat = 32 := by
    rw [toRat_ofInt 32 (by decide)]; norm_num
  cases fused with
  | true =>
    have hV := toRat_fma_error (Float64.ofInt d) Float64.c0018 (Float64.ofInt 32)
    rw [h32] at hV
    simpa using fused_error_bound d _ _ _ (toRat_ofInt_error d) c0018_error hV
  | false =>
    have hP := toRat_mul_error (Float64.ofInt d) Float64.c0018
    have hV := toRat_add_error (Float64.mul (Float64.ofInt d) Float64.c0018) (Float64.ofInt 32)
    rw [h32] at hV
    simpa using unfused_error_bound d _ _ _ _ (toRat_ofInt_error d) c0018_error hP hV

/-! ## Blanks -/

theorem isBlank_eq (r : Nat) : isBlank r = (isSpace r && r != 10) := rfl

theorem isSpace_of_not_blank {r : Nat} (h : isBlank r = false) (h10 : r ≠ 10) :
    isSpace r = false := by
  simp only [isBlank, Bool.and_eq_false_iff, bne_eq_false_iff_eq] at h
  rcases h with h | h
  · exact h
  · exact absurd h h10

theorem isBlank_of_not_space {r : Nat} (h : isSpace r = false) : isBlank r = false := by
  simp [isBlank, h]

theorem skipBlanks_cons (r : Nat) (t : List Nat) :
    skipBlanks (r :: t) = if isBlank r then skipBlanks t else r :: t := by
  simp [skipBlanks, isBlank]

theorem skipBlanks_split (t : List Nat) :
    ∃ run, (∀ x ∈ run, isBlank x = true) ∧ t = run ++ skipBlanks t := by
  induction t with
  | nil => exact ⟨[], by simp, by simp [skipBlanks]⟩
  | cons r t ih =>
    rw [skipBlanks_cons]
    by_cases hr : isBlank r = true
    · obtain ⟨run, h1, h2⟩ := ih
      refine ⟨r :: run, ?_, ?_⟩
      · intro x hx
        rcases List.mem_cons.1 hx with rfl | hx
        · exact hr
        · exact h1 x hx
      · rw [if_pos hr, List.cons_append, ← h2]
    · exact ⟨[], by simp, by simp [hr]⟩

theorem skipBlanks_head (t : List Nat) :
    ∀ c, (skipBlanks t).head? = some c → isBlank c = false := by
  induction t with
  | nil => intro c h; simp [skipBlanks] at h
  | cons r t ih =>
    intro c h
    rw [skipBlanks_cons] at h
    by_cases hr : isBlank r = true
    · rw [if_pos hr] at h; exact ih c h
    · rw [if_neg hr] at h
      simp at h
      subst h
      simpa using hr

theorem skipBlanks_of_head (x : List Nat) (h : ∀ c, x.head? = some c → isBlank c = false) :
    skipBlanks x = x := by
  cases x with
  | nil => rfl
  | cons r t => rw [skipBlanks_cons, h r rfl]; simp

theorem skipBlanks_run (run x : List Nat) (h : ∀ c ∈ run, isBlank c = true) :
    skipBlanks (run ++ x) = skipBlanks x := by
  induction run with
  | nil => rfl
  | cons r run ih =>
    rw [List.cons_append, skipBlanks_cons, h r (List.mem_cons_self _ _), if_pos rfl]
    exact ih (fun c hc => h c (List.mem_cons_of_mem _ hc))

theorem matchTrailing_nil : matchTrailing 0 [] = some [] := rfl

theorem matchTrailing_cons (r : Nat) (t : List Nat) :
    matchTrailing 0 (r :: t) = if isBlank r then some (skipBlanks t) else none := by
  by_cases hr : isBlank r = true
  · have h1 : isSpace r = true := by
      simp only [isBlank, Bool.and_eq_true] at hr; exact hr.1
    have h2 : r ≠ 10 := by
      simp only [isBlank, Bool.and_eq_true, bne_iff_ne] at hr; exact hr.2
    simp [matchTrailing, h1, h2, hr, skipBlanks_cons]
  · have hr0 : isBlank r = false := by simpa using hr
    by_cases h10 : r = 10
    · subst h10
      simp [matchTrailing, hr0]
    · simp [matchTrailing, isSpace_of_not_blank hr0 h10, hr0]

theorem advance_verb (i : Nat) (inp : List Nat) :
    advance none i [37, 100] inp = Adv.stop i inp := by
  rw [advance_cons]; simp [isSpace, flushSpace]

/-! ## The literal text, read both ways -/

theorem plain_cons {c : Nat} {l : List Nat} (h : plain (c :: l) = true) :
    c ≠ 37 ∧ plain l = true ∧
    (c = 32 → ∃ c2 l1, l = c2 :: l1 ∧ isSpace c2 = false ∨ l = []) ∧
    (c ≠ 32 → isSpace c = false) := by
  simp only [plain, Bool.and_eq_true, bne_iff_ne, ne_eq] at h
  obtain ⟨⟨h1, h2⟩, h3⟩ := h
  refine ⟨h1, h3, ?_, ?_⟩
  · intro hc
    rw [if_pos hc] at h2
    cases l with
    | nil => exact ⟨0, [], Or.inr rfl⟩
    | cons c2 l1 => exact ⟨c2, l1, Or.inl ⟨rfl, by simpa using h2⟩⟩
  · intro hc
    rw [if_neg hc] at h2
    simpa using h2

theorem litMatch_nil_inv {inp body : List Nat} (h : LitMatch [] inp body) : inp = body := by
  cases h; rfl

theorem litMatch_cons_inv {c : Nat} {l inp body : List Nat} (h : LitMatch (c :: l) inp body) :
    (isSpace c = false ∧ ∃ inp1, inp = c :: inp1 ∧ LitMatch l inp1 body) ∨
    (c = 32 ∧ ∃ s run inp1, inp = s :: (run ++ inp1) ∧ isBlank s = true ∧
      (∀ x ∈ run, isBlank x = true) ∧ LitMatch l inp1 body) := by
  cases h with
  | rune _ _ inp1 _ hc h1 => exact Or.inl ⟨hc, inp1, rfl, h1⟩
  | blanks _ s run inp1 _ hs hrun h1 => exact Or.inr ⟨rfl, s, run, inp1, rfl, hs, hrun, h1⟩

/-- What `advance` stops on is what the literal text leaves: from a stop of
`advance` to a reading of the input as the literal text. -/
theorem advance_inv (l0 : List Nat) :
    plain (l0 ++ [32]) = true →
    (∀ i inp w body, advance none i (l0 ++ [32, 37, 100]) inp = Adv.stop w body →
      w = i + l0.length + 1 ∧ (∀ c, body.head? = some c → isBlank c = false) ∧
      (body = [] ∨ LitMatch (l0 ++ [32]) inp body)) ∧
    (∀ i inp w body, (∃ c l1, l0 = c :: l1 ∧ isSpace c = false) →
      advance (some (0, true)) i (l0 ++ [32, 37, 100]) inp = Adv.stop w body →
      w = i + l0.length + 1 ∧ (∀ c, body.head? = some c → isBlank c = false) ∧
      (body = [] ∨ LitMatch (32 :: (l0 ++ [32])) inp body)) := by
  induction l0 with
  | nil =>
    intro _
    refine ⟨?_, ?_⟩
    · intro i inp w body h
      rw [List.nil_append, advance_blank, advance_pend_verb] at h
      cases inp with
      | nil =>
        rw [matchTrailing_nil] at h
        simp only [Adv.stop.injEq] at h
        obtain ⟨h1, h2⟩ := h
        subst h1 h2
        exact ⟨by simp, by simp, Or.inl rfl⟩
      | cons r t =>
        rw [matchTrailing_cons] at h
        by_cases hr : isBlank r = true
        · rw [if_pos hr] at h
          simp only [Adv.stop.injEq] at h
          obtain ⟨h1, h2⟩ := h
          subst h1 h2
          refine ⟨by simp, skipBlanks_head t, Or.inr ?_⟩
          obtain ⟨run, hrun, hsplit⟩ := skipBlanks_split t
          have := LitMatch.blanks [] r run _ _ hr hrun (LitMatch.done (skipBlanks t))
          rw [← hsplit] at this
          exact this
        · rw [if_neg hr] at h
          simp at h
    · intro i inp w body hex
      obtain ⟨c, l1, h, _⟩ := hex
      simp at h
  | cons c l0 ih =>
    intro hp
    rw [List.cons_append] at hp
    obtain ⟨h37, hpl, h32, hn32⟩ := plain_cons hp
    have ih := ih hpl
    refine ⟨?_, ?_⟩
    · intro i inp w body h
      rw [List.cons_append] at h
      by_cases hc : c = 32
      · subst hc
        obtain ⟨c2, l1, hcase⟩ := h32 rfl
        rcases hcase with ⟨hl, hc2⟩ | hl
        · have hl0 : ∃ c l1', l0 = c :: l1' ∧ isSpace c = false := by
            cases l0 with
            | nil =>
              simp at hl
              obtain ⟨hl, _⟩ := hl
              subst hl
              simp [isSpace] at hc2
            | cons a t =>
              simp at hl
              exact ⟨a, t, rfl, by rw [hl.1]; exact hc2⟩
          rw [advance_blank] at h
          obtain ⟨hw, hnb, hlm⟩ := ih.2 (i + 1) inp w body hl0 h
          refine ⟨by simp only [List.length_cons]; omega, hnb, ?_⟩
          rcases hlm with hlm | hlm
          · exact Or.inl hlm
          · exact Or.inr (by rw [List.cons_append]; exact hlm)
        · simp at hl
      · have hsp := hn32 hc
        cases inp with
        | nil =>
          rw [advance_lit_nil _ _ hsp h37] at h
          simp at h
        | cons r inp1 =>
          rw [advance_lit _ _ _ _ hsp h37] at h
          by_cases hr : r = c
          · rw [if_pos hr] at h
            subst hr
            obtain ⟨hw, hnb, hlm⟩ := ih.1 (i + 1) inp1 w body h
            refine ⟨by simp only [List.length_cons]; omega, hnb, ?_⟩
            rcases hlm with hlm | hlm
            · exact Or.inl hlm
            · exact Or.inr (by rw [List.cons_append]; exact LitMatch.rune r _ _ _ hsp hlm)
          · rw [if_neg hr] at h
            simp at h
    · intro i inp w body hex h
      obtain ⟨c', l1, heq, hsp'⟩ := hex
      have hcc : c = c' := by simp at heq; exact heq.1
      subst hcc
      have hsp := hsp'
      rw [List.cons_append, advance_pend_lit _ _ _ hsp h37] at h
      cases inp with
      | nil =>
        rw [matchTrailing_nil] at h
        simp at h
      | cons r0 t =>
        rw [matchTrailing_cons] at h
        by_cases hr0 : isBlank r0 = true
        · rw [if_pos hr0] at h
          cases hsk : skipBlanks t with
          | nil => rw [hsk] at h; simp at h
          | cons r rest =>
            rw [hsk] at h
            simp only at h
            by_cases hr : r = c
            · rw [if_pos hr] at h
              subst hr
              obtain ⟨hw, hnb, hlm⟩ := ih.1 (i + 1) rest w body h
              refine ⟨by simp only [List.length_cons]; omega, hnb, ?_⟩
              rcases hlm with hlm | hlm
              · exact Or.inl hlm
              · right
                obtain ⟨run, hrun, hsplit⟩ := skipBlanks_split t
                rw [hsk] at hsplit
                rw [hsplit, List.cons_append]
                exact LitMatch.blanks _ r0 run _ _ hr0 hrun (LitMatch.rune r _ _ _ hsp hlm)
            · rw [if_neg hr] at h
              simp at h
        · rw [if_neg hr0] at h
          simp at h

/-- From a reading of the input as the literal text to the stop of `advance`. -/
theorem advance_of_litMatch (l0 : List Nat) :
    plain (l0 ++ [32]) = true →
    ∀ i inp body, LitMatch (l0 ++ [32]) inp body →
      (∀ c, body.head? = some c → isBlank c = false) →
      advance none i (l0 ++ [32, 37, 100]) inp = Adv.stop (i + l0.length + 1) body := by
  induction l0 with
  | nil =>
    intro _ i inp body hlm hnb
    rw [List.nil_append] at hlm
    rcases litMatch_cons_inv hlm with ⟨hsp, _⟩ | ⟨_, s, run, inp1, rfl, hs, hrun, h1⟩
    · simp [isSpace] at hsp
    · have := litMatch_nil_inv h1
      subst this
      rw [List.nil_append, advance_blank, advance_pend_verb, matchTrailing_cons, if_pos hs,
        skipBlanks_run _ _ hrun, skipBlanks_of_head _ hnb]
      simp
  | cons c l0 ih =>
    intro hp i inp body hlm hnb
    rw [List.cons_append] at hp hlm
    obtain ⟨h37, hpl, h32, hn32⟩ := plain_cons hp
    have ih := ih hpl
    rw [List.cons_append]
    rcases litMatch_cons_inv hlm with ⟨hsp, inp1, rfl, h1⟩ | ⟨hc, s, run, inp1, rfl, hs, hrun, h1⟩
    · rw [advance_lit _ _ _ _ hsp h37, if_pos rfl, ih (i + 1) inp1 body h1 hnb]
      simp only [List.length_cons, Adv.stop.injEq, and_true]
      omega
    · subst hc
      obtain ⟨c2, l1, hcase⟩ := h32 rfl
      rcases hcase with ⟨hl, hc2⟩ | hl
      · cases l0 with
        | nil =>
          simp at hl
          obtain ⟨hl, _⟩ := hl
          subst hl
          simp [isSpace] at hc2
        | cons a t =>
          have ha : a = c2 := by simp at hl; exact hl.1
          subst ha
          have ha37 : a ≠ 37 := by
            rw [List.cons_append] at hpl
            exact (plain_cons hpl).1
          rw [List.cons_append] at h1
          rcases litMatch_cons_inv h1 with ⟨_, inp2, rfl, h2⟩ | ⟨ha32, _⟩
          · have hih := ih (i + 1) (a :: inp2) body (by rw [List.cons_append]; exact h1) hnb
            rw [List.cons_append, advance_lit _ _ _ _ hc2 ha37, if_pos rfl] at hih
            have hsk : skipBlanks (run ++ a :: inp2) = a :: inp2 := by
              rw [skipBlanks_run _ _ hrun]
              exact skipBlanks_of_head _ (by
                intro c hc; simp at hc; subst hc; exact isBlank_of_not_space hc2)
            rw [advance_blank, List.cons_append, advance_pend_lit _ _ _ hc2 ha37,
              matchTrailing_cons, if_pos hs, hsk]
            simp only [if_true]
            rw [hih]
            simp only [List.length_cons, Adv.stop.injEq, and_true]
            omega
          · subst ha32
            simp [isSpace] at hc2
      · simp at hl

/-! ## The number, read both ways -/

/-- Method `scanInt` on a plus sign, a digit string and a non-digit. -/
theorem scanInt_plus_digits (b : Nat) (hb : b = 32 ∨ b = 64) (ds rest : List Nat)
    (hne : ds ≠ []) (hd : ∀ c ∈ ds, isDigit c = true)
    (hr : ∀ c, rest.head? = some c → isDigit c = false)
    (hv : (digitsValue ds : Int) < 2 ^ (b - 1)) :
    scanInt b (43 :: ds ++ rest) = some ((digitsValue ds : Int), rest) := by
  obtain ⟨c, t, rfl⟩ := List.exists_cons_of_ne_nil hne
  have hc : isDigit c = true := hd c (List.mem_cons_self _ _)
  have htw := takeWhile_digits (c :: t) rest hd hr
  have h64 : digitsValue (c :: t) < 2 ^ 63 := by
    rcases hb with rfl | rfl
    · norm_num at hv ⊢; omega
    · norm_num at hv ⊢; omega
  have hpu := ParseUint_digits (c :: t) hne hd (by omega)
  have hse := signExtend_of_range b hb (digitsValue (c :: t))
    (by have : (0 : Int) ≤ 2 ^ (b - 1) := by positivity
        omega) hv
  have hnot : ¬ 9223372036854775808 ≤ digitsValue (c :: t) := by
    norm_num at h64; omega
  have h43 : isSpace 43 = false := by decide
  simp only [List.cons_append] at htw ⊢
  simp [scanInt, SkipSpace_of_not_space _ h43, hc, htw.1, htw.2, ParseInt, hpu, hse, hnot]

theorem verdict_of_scanInt (b : Nat) (r : Nat) (t : List Nat) (v : Int) (rest : List Nat)
    (hsp : isSpace r = false) (h : scanInt b (r :: t) = some (v, rest)) :
    verdict b (r :: t) = (v, true) := by
  unfold verdict
  rw [SkipSpace_of_not_space t hsp]
  simp only [h]

/-- A text that starts with a number is scanned to its value. -/
theorem verdict_of_isNumber (b : Nat) (hb : b = 32 ∨ b = 64) (body : List Nat) (d : Int)
    (h : IsNumber b body d) : verdict b body = (d, true) := by
  obtain ⟨sgn, ds, tail, rfl, hs, hne, hd, ht, hval, hlo, hhi⟩ := h
  obtain ⟨c, t, hct⟩ := List.exists_cons_of_ne_nil hne
  have hc : isDigit c = true := hd c (by rw [hct]; exact List.mem_cons_self _ _)
  rcases hs with rfl | rfl | rfl
  · simp only [List.nil_append, List.nil_eq, reduceCtorEq, if_false] at hval ⊢
    subst hval
    have := scanInt_digits b hb ds tail hne hd ht hhi
    rw [hct, List.cons_append] at this ⊢
    exact verdict_of_scanInt b c _ _ _ (isSpace_of_digit hc) this
  · have hv : d = (digitsValue ds : Int) := by rw [hval]; simp
    subst hv
    have := scanInt_plus_digits b hb ds tail hne hd ht hhi
    simp only [List.cons_append, List.nil_append] at this ⊢
    exact verdict_of_scanInt b 43 _ _ _ (by decide) this
  · have hv : d = -(digitsValue ds : Int) := by rw [hval]; simp
    subst hv
    have := scanInt_minus_digits b hb ds tail hne hd ht (by omega)
    simp only [List.cons_append, List.nil_append] at this ⊢
    exact verdict_of_scanInt b 45 _ _ _ (by decide) this

theorem parseUint_loop_inv (ds : List Nat) :
    ∀ acc n, (∀ c ∈ ds, isDigit c = true) →
      ds.foldlM (fun n c =>
        if isDigit c then
          if n ≥ (2 ^ 64 - 1) / 10 + 1 then none
          else
            let n1 := (n * 10 + (c - 48)) % 2 ^ 64
            if n1 < n * 10 then none else some n1
        else none) acc = some n →
      n = ds.foldl (fun n c => n * 10 + (c - 48)) acc := by
  induction ds with
  | nil => intro acc n _ h; simpa using h.symm
  | cons c t ih =>
    intro acc n hd h
    have hc : isDigit c = true := hd c (List.mem_cons_self _ _)
    have ht : ∀ x ∈ t, isDigit x = true := fun x hx => hd x (List.mem_cons_of_mem _ hx)
    have hc9 : c - 48 ≤ 9 := by
      simp only [isDigit, Bool.and_eq_true, decide_eq_true_eq] at hc; omega
    simp only [List.foldlM_cons, hc, if_true] at h
    by_cases hcut : acc ≥ (2 ^ 64 - 1) / 10 + 1
    · rw [if_pos hcut] at h; simp at h
    · rw [if_neg hcut] at h
      by_cases hw : (acc * 10 + (c - 48)) % 2 ^ 64 < acc * 10
      · rw [if_pos hw] at h; simp at h
      · rw [if_neg hw] at h
        have hstep : (acc * 10 + (c - 48)) % 2 ^ 64 = acc * 10 + (c - 48) := by
          norm_num at hcut hw ⊢
          omega
        rw [hstep] at h
        simp only [Option.some_bind, Option.bind_eq_bind] at h
        exact ih _ n ht h

theorem ParseUint_inv (ds : List Nat) (n : Nat) (hd : ∀ c ∈ ds, isDigit c = true)
    (h : ParseUint ds = some n) : n = digitsValue ds := by
  unfold ParseUint at h
  split at h
  · simp at h
  · exact parseUint_loop_inv ds 0 n hd h

theorem signExtend_range (b : Nat) (hb : b = 32 ∨ b = 64) (v : Int)
    (h : signExtend b v = v) : -(2 ^ (b - 1) : Int) ≤ v ∧ v < 2 ^ (b - 1) := by
  unfold signExtend at h
  rcases hb with rfl | rfl
  · norm_num at h ⊢
    have h1 := Int.emod_nonneg (v + 2147483648) (by norm_num : (4294967296 : Int) ≠ 0)
    have h2 := Int.emod_lt_of_pos (v + 2147483648) (by norm_num : (0 : Int) < 4294967296)
    omega
  · norm_num at h ⊢
    have h1 := Int.emod_nonneg (v + 9223372036854775808)
      (by norm_num : (18446744073709551616 : Int) ≠ 0)
    have h2 := Int.emod_lt_of_pos (v + 9223372036854775808)
      (by norm_num : (0 : Int) < 18446744073709551616)
    omega

theorem head?_dropWhile_isDigit (l : List Nat) :
    ∀ c, (l.dropWhile isDigit).head? = some c → isDigit c = false := by
  induction l with
  | nil => intro c h; simp at h
  | cons x t ih =>
    intro c h
    by_cases hx : isDigit x = true
    · rw [List.dropWhile_cons_of_pos hx] at h; exact ih c h
    · rw [List.dropWhile_cons_of_neg hx] at h
      simp only [List.head?_cons, Option.some.injEq] at h
      subst h
      simpa using hx

theorem ParseInt_inv (sgn ds : List Nat) (v : Int)
    (hs : sgn = [] ∨ sgn = [43] ∨ sgn = [45]) (hne : ds ≠ [])
    (hd : ∀ c ∈ ds, isDigit c = true) (h : ParseInt (sgn ++ ds) = some v) :
    v = (if sgn = [45] then -(digitsValue ds : Int) else (digitsValue ds : Int)) := by
  obtain ⟨c, t, rfl⟩ := List.exists_cons_of_ne_nil hne
  have hc : isDigit c = true := hd c (List.mem_cons_self _ _)
  have hc43 : c ≠ 43 := by rintro rfl; revert hc; decide
  have hc45 : c ≠ 45 := by rintro rfl; revert hc; decide
  rcases hs with rfl | rfl | rfl
  · simp only [List.nil_append, ParseInt, hc43, hc45, or_self, if_false] at h
    cases hu : ParseUint (c :: t) with
    | none => rw [hu] at h; simp at h
    | some un =>
      rw [hu] at h
      have := ParseUint_inv _ _ hd hu
      subst this
      simp only [false_and, if_false, not_false_eq_true, true_and] at h
      split at h
      · simp at h
      · simpa using h.symm
  · simp only [List.cons_append, List.nil_append, ParseInt] at h
    cases hu : ParseUint (c :: t) with
    | none => simp [hu] at h
    | some un =>
      have := ParseUint_inv _ _ hd hu
      subst this
      simp [hu] at h
      simpa using h.2.symm
  · simp only [List.cons_append, List.nil_append, ParseInt] at h
    cases hu : ParseUint (c :: t) with
    | none => simp [hu] at h
    | some un =>
      have := ParseUint_inv _ _ hd hu
      subst this
      simp [hu] at h
      simpa using h.2.symm

theorem scanInt_inv (b : Nat) (hb : b = 32 ∨ b = 64) (r : Nat) (t : List Nat) (v : Int)
    (rest : List Nat) (hsp : isSpace r = false) (h : scanInt b (r :: t) = some (v, rest)) :
    IsNumber b (r :: t) v := by
  unfold scanInt at h
  rw [SkipSpace_of_not_space t hsp] at h
  simp only at h
  by_cases hs : r = 43 ∨ r = 45
  · simp only [hs, if_true] at h
    cases t with
    | nil => simp at h
    | cons d0 t1 =>
      simp only at h
      by_cases hd0 : isDigit d0 = true
      · simp only [hd0, if_true] at h
        have hne : (d0 :: t1).takeWhile isDigit ≠ [] := by
          rw [List.takeWhile_cons_of_pos hd0]; simp
        have hd : ∀ c ∈ (d0 :: t1).takeWhile isDigit, isDigit c = true :=
          fun c hc => List.mem_takeWhile_imp hc
        cases hp : ParseInt ([r] ++ (d0 :: t1).takeWhile isDigit) with
        | none => rw [hp] at h; simp at h
        | some i =>
          rw [hp] at h
          simp only at h
          by_cases hse : signExtend b i = i
          · rw [if_pos hse] at h
            simp only [Option.some.injEq, Prod.mk.injEq] at h
            obtain ⟨hv, _⟩ := h
            subst hv
            have hval := ParseInt_inv [r] _ i (by rcases hs with rfl | rfl <;> simp) hne hd hp
            have hrange := signExtend_range b hb i hse
            refine ⟨[r], (d0 :: t1).takeWhile isDigit, (d0 :: t1).dropWhile isDigit, ?_,
              by rcases hs with rfl | rfl <;> simp, hne, hd, head?_dropWhile_isDigit _,
              hval, hrange.1, hrange.2⟩
            rw [List.takeWhile_append_dropWhile]; rfl
          · rw [if_neg hse] at h; simp at h
      · simp [hd0] at h
  · simp only [hs, if_false] at h
    by_cases hd0 : isDigit r = true
    · simp only [hd0, if_true] at h
      have hne : (r :: t).takeWhile isDigit ≠ [] := by
        rw [List.takeWhile_cons_of_pos hd0]; simp
      have hd : ∀ c ∈ (r :: t).takeWhile isDigit, isDigit c = true :=
        fun c hc => List.mem_takeWhile_imp hc
      cases hp : ParseInt ([] ++ (r :: t).takeWhile isDigit) with
      | none => rw [hp] at h; simp at h
      | some i =>
        rw [hp] at h
        simp only at h
        by_cases hse : signExtend b i = i
        · rw [if_pos hse] at h
          simp only [Option.some.injEq, Prod.mk.injEq] at h
          obtain ⟨hv, _⟩ := h
          subst hv
          have hval := ParseInt_inv [] _ i (Or.inl rfl) hne hd hp
          have hrange := signExtend_range b hb i hse
          refine ⟨[], (r :: t).takeWhile isDigit, (r :: t).dropWhile isDigit, ?_,
            Or.inl rfl, hne, hd, head?_dropWhile_isDigit _, hval, hrange.1, hrange.2⟩
          rw [List.takeWhile_append_dropWhile]; rfl
        · rw [if_neg hse] at h; simp at h
    · simp [hd0] at h

/-- What is scanned to a value starts with a number, when no blank comes first. -/
theorem isNumber_of_verdict (b : Nat) (hb : b = 32 ∨ b = 64) (body : List Nat) (d : Int)
    (hnb : ∀ c, body.head? = some c → isBlank c = false)
    (h : verdict b body = (d, true)) : IsNumber b body d := by
  cases body with
  | nil => revert h; simp [verdict, SkipSpace, scanInt]
  | cons r t =>
    have hr := hnb r rfl
    by_cases hsp : isSpace r = true
    · have h10 : r = 10 := by
        simp only [isBlank, hsp, Bool.true_and, bne_eq_false_iff_eq] at hr
        exact hr
      subst h10
      revert h
      simp [verdict, SkipSpace]
    · have hsp2 : isSpace r = false := by simpa using hsp
      unfold verdict at h
      rw [SkipSpace_of_not_space t hsp2] at h
      simp only at h
      cases hsi : scanInt b (r :: t) with
      | none => rw [hsi] at h; simp at h
      | some p =>
        obtain ⟨v, rest⟩ := p
        rw [hsi] at h
        simp only [Prod.mk.injEq, and_true] at h
        subst h
        exact scanInt_inv b hb r t v rest hsp2 hsi

theorem isNumber_head (b : Nat) (body : List Nat) (d : Int) (h : IsNumber b body d) :
    ∀ c, body.head? = some c → isBlank c = false := by
  obtain ⟨sgn, ds, tail, rfl, hs, hne, hd, _, _, _, _⟩ := h
  obtain ⟨c0, t, rfl⟩ := List.exists_cons_of_ne_nil hne
  have hc0 : isDigit c0 = true := hd c0 (List.mem_cons_self _ _)
  intro c hc
  rcases hs with rfl | rfl | rfl
  · simp only [List.nil_append, List.cons_append, List.head?_cons, Option.some.injEq] at hc
    subst hc
    simp [isBlank, isSpace_of_digit hc0]
  · simp only [List.cons_append, List.nil_append, List.head?_cons, Option.some.injEq] at hc
    subst hc
    decide
  · simp only [List.cons_append, List.nil_append, List.head?_cons, Option.some.injEq] at hc
    subst hc
    decide

theorem parseInt_cases (b : Nat) (input format : List Nat) :
    parseInt b input format = (0, false) ∨ ∃ d, parseInt b input format = (d, true) := by
  unfold parseInt
  split
  split
  · exact Or.inr ⟨_, rfl⟩
  · exact Or.inl rfl

theorem verdict_nil (b : Nat) : verdict b [] = (0, false) := by
  simp [verdict, SkipSpace, scanInt]

theorem parseInt_iff_matches (b : Nat) (hb : b = 32 ∨ b = 64) (l0 lit fmt input : List Nat)
    (hfmt : (lit = batteryLiteral ∧ fmt = batteryFormat) ∨ (lit = tempLiteral ∧ fmt = tempFormat))
    (hl : lit = l0 ++ [32]) (hf : fmt = l0 ++ [32, 37, 100])
    (hp : plain (l0 ++ [32]) = true) (d : Int) :
    parseInt b input fmt = (d, true) ↔ Matches b lit (input.take hugeWid) d := by
  have hlen : lit.length = 0 + l0.length + 1 := by rw [hl]; simp
  constructor
  · intro h
    cases hadv : advance none 0 fmt (input.take hugeWid) with
    | err =>
      have := parseInt_of_no_stop b lit fmt input hfmt (by intro w i1; rw [hadv]; simp)
      rw [this] at h; simp at h
    | mismatch i0 =>
      have := parseInt_of_no_stop b lit fmt input hfmt (by intro w i1; rw [hadv]; simp)
      rw [this] at h; simp at h
    | stop w body =>
      have hadv2 := hadv
      rw [hf] at hadv2
      obtain ⟨hw, hnb, hbody⟩ := (advance_inv l0 hp).1 0 _ w body hadv2
      rw [hw, ← hlen] at hadv
      rw [parseInt_of_stop b lit fmt input body hfmt hadv] at h
      rcases hbody with rfl | hm
      · rw [verdict_nil] at h; simp at h
      · exact ⟨body, by rw [hl]; exact hm, isNumber_of_verdict b hb body d hnb h⟩
  · rintro ⟨body, hm, hn⟩
    rw [hl] at hm
    have hadv := advance_of_litMatch l0 hp 0 _ body hm (isNumber_head b body d hn)
    rw [← hf, ← hlen] at hadv
    rw [parseInt_of_stop b lit fmt input body hfmt hadv]
    exact verdict_of_isNumber b hb body d hn

/-! ## The reply parser: claims -/

/-- C1: for every integer `N` in the range of `int` (32 or 64 bits), `parseInt` on
the payload `"Battery voltage (mV): N"`, `N` in decimal, with the battery template
returns `(N, true)`. -/
theorem parseInt_battery_voltage (intBits : Nat) (hbits : intBits = 32 ∨ intBits = 64)
    (N : Int) (hlo : -(2 ^ (intBits - 1) : Int) ≤ N) (hhi : N < 2 ^ (intBits - 1)) :
    parseInt intBits (runes "Battery voltage (mV): " ++ decimal N)
      (runes "Battery voltage (mV): %d") = (N, true) :=
  parseInt_reply intBits hbits batteryLiteral batteryFormat (Or.inl ⟨rfl, rfl⟩) N hlo hhi

/-- Witness of `parseInt_battery_voltage`: 3300 millivolts on a 64-bit platform. -/
theorem parseInt_battery_voltage_witness :
    (64 = 32 ∨ 64 = 64) ∧ -(2 ^ (64 - 1) : Int) ≤ 3300 ∧ (3300 : Int) < 2 ^ (64 - 1) ∧
    parseInt 64 (runes "Battery voltage (mV): " ++ decimal 3300)
      (runes "Battery voltage (mV): %d") = (3300, true) :=
  ⟨Or.inr rfl, by norm_num, by norm_num,
    parseInt_battery_voltage 64 (Or.inr rfl) 3300 (by norm_num) (by norm_num)⟩

/-- C2, as stated, fails: text after the number is not a mismatch.  The payload
`"Battery voltage (mV): 3300 extra"` is parsed as 3300. -/
theorem parseInt_accepts_trailing_text :
    parseInt 64 (runes "Battery voltage (mV): 3300 extra") batteryFormat = (3300, true) ∧
    parseInt 64 (runes "Battery voltage (mV): 3300 extra") batteryFormat ≠ (0, false) := by
  decide

/-- C2, amended: with either template, `parseInt` returns `(d, true)` exactly when
the payload (the first `2 ^ 30` runes of it, the read limit) starts with the
template's literal text, where each space of the template stands for one or
more blanks of the payload (spaces other than the newline) and every other rune
for itself, followed at once by a decimal number of value `d`: an optional sign
`+` or `-`, then all the digits found there, at least one, with `d` in the range
of `int`; what follows the digits is not examined.  On every other payload it
returns `(0, false)`.  The scanning loop ends on its own: its result is the same
for every fuel above the template's length. -/
theorem parseInt_matches (intBits : Nat) (lit format input : List Nat)
    (hbits : intBits = 32 ∨ intBits = 64)
    (hformat : (lit = batteryLiteral ∧ format = batteryFormat) ∨
      (lit = tempLiteral ∧ format = tempFormat)) :
    (∀ d, parseInt intBits input format = (d, true) ↔
      Matches intBits lit (input.take hugeWid) d) ∧
    ((∀ d, ¬ Matches intBits lit (input.take hugeWid) d) →
      parseInt intBits input format = (0, false)) ∧
    (∀ fuel, format.length < fuel →
      doScanf intBits fuel format (input.take hugeWid) 0 0 =
        Sscanf intBits input format) := by
  have hiff : ∀ d, parseInt intBits input format = (d, true) ↔
      Matches intBits lit (input.take hugeWid) d := by
    intro d
    rcases hformat with ⟨h1, h2⟩ | ⟨h1, h2⟩
    · exact parseInt_iff_matches intBits hbits (runes "Battery voltage (mV):") lit format input
        (Or.inl ⟨h1, h2⟩) (by rw [h1]; decide) (by rw [h2]; decide) (by decide) d
    · exact parseInt_iff_matches intBits hbits (runes "Temperature value (0.01 degC):") lit
        format input (Or.inr ⟨h1, h2⟩) (by rw [h1]; decide) (by rw [h2]; decide) (by decide) d
  refine ⟨hiff, fun hno => ?_, fun fuel hfuel => ?_⟩
  · rcases parseInt_cases intBits input format with h | ⟨d, h⟩
    · exact h
    · exact absurd ((hiff d).1 h) (hno d)
  · exact doScanf_fuel intBits fuel (format.length + 1) format _ 0 0 hfuel (Nat.lt_succ_self _)

/-- Witness of `parseInt_matches` on the battery template.  The payload
`"Battery  voltage (mV):   +007x"`, with runs of blanks, a sign, leading zeros
and text after the number, matches with the value 7.  No number is matched in
`" Battery voltage (mV): 3300"` (a blank first), in `"Ba ttery voltage (mV): 3300"`,
in `"Battery voltage (mV):3300"` (no blank), in `"Battery voltage (mV):  abc"`, in
`"Battery voltage (mV): -"`, in `"Battery vol"`, nor in
`"Battery voltage (mV): 9223372036854775808"` (out of range). -/
theorem parseInt_matches_witness :
    (64 = 32 ∨ 64 = 64) ∧
    ((batteryLiteral = batteryLiteral ∧ batteryFormat = batteryFormat) ∨
      (batteryLiteral = tempLiteral ∧ batteryFormat = tempFormat)) ∧
    Matches 64 batteryLiteral ((runes "Battery  voltage (mV):   +007x").take hugeWid) 7 ∧
    (∀ d, ¬ Matches 64 batteryLiteral ((runes " Battery voltage (mV): 3300").take hugeWid) d) ∧
    (∀ d, ¬ Matches 64 batteryLiteral ((runes "Ba ttery voltage (mV): 3300").take hugeWid) d) ∧
    (∀ d, ¬ Matches 64 batteryLiteral ((runes "Battery voltage (mV):3300").take hugeWid) d) ∧
    (∀ d, ¬ Matches 64 batteryLiteral ((runes "Battery voltage (mV):  abc").take hugeWid) d) ∧
    (∀ d, ¬ Matches 64 batteryLiteral ((runes "Battery voltage (mV): -").take hugeWid) d) ∧
    (∀ d, ¬ Matches 64 batteryLiteral ((runes "Battery vol").take hugeWid) d) ∧
    (∀ d, ¬ Matches 64 batteryLiteral
      ((runes "Battery voltage (mV): 9223372036854775808").take hugeWid) d) := by
  have hno : ∀ input : List Nat, parseInt 64 input batteryFormat = (0, false) →
      ∀ d, ¬ Matches 64 batteryLiteral (input.take hugeWid) d := by
    intro input h0 d hm
    have h := ((parseInt_matches 64 batteryLiteral batteryFormat input (Or.inr rfl)
      (Or.inl ⟨rfl, rfl⟩)).1 d).2 hm
    rw [h0] at h
    simp at h
  exact ⟨Or.inr rfl, Or.inl ⟨rfl, rfl⟩,
    ((parseInt_matches 64 batteryLiteral batteryFormat (runes "Battery  voltage (mV):   +007x")
      (Or.inr rfl) (Or.inl ⟨rfl, rfl⟩)).1 7).1 (by decide),
    hno _ (by decide), hno _ (by decide), hno _ (by decide), hno _ (by decide),
    hno _ (by decide), hno _ (by decide), hno _ (by decide)⟩

/-! ## The scanner: claims -/

theorem scanCallback_found_subset (st : ScanState) (device : ScanResult) :
    st.found ⊆ (scanCallback st device).found := by
  unfold scanCallback
  split
  · exact fun _ h => h
  · split
    · exact fun _ h => List.mem_cons_of_mem _ h
    · exact fun _ h => h

theorem scanCallback_inv (st : ScanState) (device : ScanResult) (h : ScanInv st) :
    ScanInv (scanCallback st device) := by
  obtain ⟨h1, h2, h3⟩ := h
  unfold scanCallback
  by_cases hf : device.Address ∈ st.found
  · simp only [hf, if_true]; exact ⟨h1, h2, h3⟩
  · by_cases hp : HasPrefix device.LocalName (runes "C T") = true
    · simp only [hf, hp, if_true, if_false]
      refine ⟨?_, ?_, ?_⟩
      · rw [List.map_append, List.nodup_append]
        refine ⟨h1, by simp, ?_⟩
        intro a ha hb
        simp only [List.map_cons, List.map_nil, List.mem_singleton] at hb
        obtain ⟨r, hr, rfl⟩ := List.mem_map.1 ha
        exact hf (hb ▸ h2 r hr)
      · intro r hr
        rcases List.mem_append.1 hr with hr | hr
        · exact List.mem_cons_of_mem _ (h2 r hr)
        · rw [List.mem_singleton.1 hr]; exact List.mem_cons_self _ _
      · intro r hr
        rcases List.mem_append.1 hr with hr | hr
        · exact h3 r hr
        · rw [List.mem_singleton.1 hr]; exact hp
    · simp only [hf, hp, if_false]; exact ⟨h1, h2, h3⟩

theorem foldl_scanCallback_inv (advs : List ScanResult) (st : ScanState) (h : ScanInv st) :
    ScanInv (advs.foldl scanCallback st) := by
  induction advs generalizing st with
  | nil => exact h
  | cons a rest ih => exact ih _ (scanCallback_inv st a h)

theorem foldl_scanCallback_printed (advs : List ScanResult) (st : ScanState) :
    ∀ r ∈ (advs.foldl scanCallback st).printed, r ∈ st.printed ∨ r ∈ advs := by
  induction advs generalizing st with
  | nil => intro r hr; exact Or.inl hr
  | cons a rest ih =>
    intro r hr
    rcases ih (scanCallback st a) r hr with h | h
    · unfold scanCallback at h
      split at h
      · exact Or.inl h
      · split at h
        · rcases List.mem_append.1 h with h | h
          · exact Or.inl h
          · rw [List.mem_singleton.1 h]; exact Or.inr (List.mem_cons_self _ _)
        · exact Or.inl h
    · exact Or.inr (List.mem_cons_of_mem _ h)

/-- C6: in one scan session, over any finite sequence of advertisements, the
addresses reported are pairwise distinct (each at most once, however often it
advertises), and every report is one of the advertisements and its local name
starts with the prefix `"C T"`. -/
theorem scan_reports_once_matching (advs : List ScanResult) :
    ((scanSession advs).printed.map ScanResult.Address).Nodup ∧
    ∀ r ∈ (scanSession advs).printed,
      r ∈ advs ∧ HasPrefix r.LocalName (runes "C T") = true := by
  have hinv : ScanInv (scanSession advs) :=
    foldl_scanCallback_inv advs _ ⟨by simp, by simp, by simp⟩
  refine ⟨hinv.1, fun r hr => ⟨?_, hinv.2.2 r hr⟩⟩
  rcases foldl_scanCallback_printed advs _ r hr with h | h
  · simp at h
  · exact h

/-- Witness of `scan_reports_once_matching`: an address that advertises twice under
a matching name and another under a name without the prefix; one report. -/
theorem scan_reports_once_matching_witness :
    (scanSession
      [{ Address := "AA:BB", RSSI := -60, LocalName := runes "C T1" },
       { Address := "AA:BB", RSSI := -61, LocalName := runes "C T1" },
       { Address := "CC:DD", RSSI := -70, LocalName := runes "kettle" }]).printed =
      [{ Address := "AA:BB", RSSI := -60, LocalName := runes "C T1" }] ∧
    ((scanSession
      [{ Address := "AA:BB", RSSI := -60, LocalName := runes "C T1" },
       { Address := "AA:BB", RSSI := -61, LocalName := runes "C T1" },
       { Address := "CC:DD", RSSI := -70, LocalName := runes "kettle" }]).printed.map
        ScanResult.Address).Nodup :=
  ⟨by decide, (scan_reports_once_matching _).1⟩

/-- C10, as stated, fails: an address seen for the first time under a local name
without the prefix is not in the set after its advertisement is processed. -/
theorem scan_unmatched_not_recorded :
    "AA:BB" ∉ ({ found := [], printed := [] } : ScanState).found ∧
    "AA:BB" ∉ (scanCallback { found := [], printed := [] }
      { Address := "AA:BB", RSSI := -60, LocalName := runes "kettle" }).found := by
  decide

/-- C10, amended: the set of seen addresses only grows, and an address is in the
set after its advertisement is processed exactly when it was in it before or the
local name starts with the prefix. -/
theorem scan_found_grows (st : ScanState) (device : ScanResult) :
    st.found ⊆ (scanCallback st device).found ∧
    (device.Address ∈ (scanCallback st device).found ↔
      device.Address ∈ st.found ∨ HasPrefix device.LocalName (runes "C T") = true) := by
  refine ⟨scanCallback_found_subset st device, ?_⟩
  unfold scanCallback
  by_cases hf : device.Address ∈ st.found
  · simp [hf]
  · by_cases hp : HasPrefix device.LocalName (runes "C T") = true
    · simp [hf, hp]
    · simp [hf, hp]

/-! ## The acquisition cycle: claims -/

/-- C4, the code at a failing input: the connection is made, service discovery
fails, and `pollOnce` returns the discovery error without any disconnect. -/
theorem pollOnce_discovery_failure_no_disconnect :
    (pollOnce exactOps 64 sensor1 discoveryFails).1 =
      Result.error "discover services: timeout on DiscoverServices" ∧
    (pollOnce exactOps 64 sensor1 discoveryFails).2.count Event.disconnect = 0 := by
  decide

/-- C5, as stated, fails: after a failed connect the three gauge children of the
device's labels, bound before the connect attempt, are published with the value 0. -/
theorem connect_failure_publishes_zero :
    (pollOnce (binary64 false) 64 sensor1 refused).1 =
      Result.error "connect: timeout on Connect" ∧
    gaugeValue (binary64 false).zero Gauge.metricLastConnectionTime ("AA:BB", "sensor1", "")
      (pollOnce (binary64 false) 64 sensor1 refused).2 = some ⟨0, 0⟩ ∧
    gaugeValue (binary64 false).zero Gauge.metricBattery ("AA:BB", "sensor1", "")
      (pollOnce (binary64 false) 64 sensor1 refused).2 = some ⟨0, 0⟩ ∧
    gaugeValue (binary64 false).zero Gauge.metricTemp ("AA:BB", "sensor1", "")
      (pollOnce (binary64 false) 64 sensor1 refused).2 = some ⟨0, 0⟩ := by
  decide

/-- C5, amended: when the connect step fails with error `e`, `pollOnce` returns the
error `"connect: " ++ e`, which is not empty, and its only actions are binding the
three gauge children and the connect attempt: no discovery, no write, no
disconnect and no `Set` on any gauge.  The three children of the device's labels
exist afterwards: a child that was not there is published with the value zero it
is made with, a child that was there keeps its value; no other child is made or
changed. -/
theorem pollOnce_connect_failure {F : Type} (ops : Float64Ops F) (intBits : Nat) (d : Device)
    (t : Transport F) (e : String) (h : t.connect = some e) :
    (pollOnce ops intBits d t).1 = Result.error ("connect: " ++ e) ∧
    "connect: " ++ e ≠ "" ∧
    (pollOnce ops intBits d t).2 =
      [Event.withLabelValues Gauge.metricLastConnectionTime (d.Address, d.Name, d.Disp),
       Event.withLabelValues Gauge.metricBattery (d.Address, d.Name, d.Disp),
       Event.withLabelValues Gauge.metricTemp (d.Address, d.Name, d.Disp),
       Event.connect d.Address] ∧
    Event.discoverServices ∉ (pollOnce ops intBits d t).2 ∧
    Event.discoverCharacteristics ∉ (pollOnce ops intBits d t).2 ∧
    (∀ cmd, Event.write cmd ∉ (pollOnce ops intBits d t).2) ∧
    Event.disconnect ∉ (pollOnce ops intBits d t).2 ∧
    (∀ g l v, Event.set g l v ∉ (pollOnce ops intBits d t).2) ∧
    (∀ g, gaugeValue ops.zero g (d.Address, d.Name, d.Disp) (pollOnce ops intBits d t).2 =
      some ops.zero) ∧
    (∀ g l, l ≠ (d.Address, d.Name, d.Disp) →
      gaugeValue ops.zero g l (pollOnce ops intBits d t).2 = none) ∧
    (∀ g cur, (pollOnce ops intBits d t).2.foldl
      (gaugeStep ops.zero g (d.Address, d.Name, d.Disp)) cur = some (cur.getD ops.zero)) ∧
    (∀ g l cur, l ≠ (d.Address, d.Name, d.Disp) →
      (pollOnce ops intBits d t).2.foldl (gaugeStep ops.zero g l) cur = cur) := by
  have hne : "connect: " ++ e ≠ "" := by
    intro h0
    have h1 := congrArg String.length h0
    rw [String.length_append] at h1
    have h2 : "connect: ".length = 9 := by decide
    have h3 : "".length = 0 := by decide
    omega
  refine ⟨by simp [pollOnce, h], hne, by simp [pollOnce, h], by simp [pollOnce, h],
    by simp [pollOnce, h], by simp [pollOnce, h], by simp [pollOnce, h],
    by simp [pollOnce, h], ?_, ?_, ?_, ?_⟩
  · intro g
    cases g <;> simp [pollOnce, h, gaugeValue, gaugeStep]
  · intro g l hl
    have hl2 : ¬ (d.Address, d.Name, d.Disp) = l := fun h => hl h.symm
    simp [pollOnce, h, gaugeValue, gaugeStep, hl2]
  · intro g cur
    cases g <;> cases cur <;> simp [pollOnce, h, gaugeStep]
  · intro g l cur hl
    have hl2 : ¬ (d.Address, d.Name, d.Disp) = l := fun h => hl h.symm
    simp [pollOnce, h, gaugeStep, hl2]

/-- Witness of `pollOnce_connect_failure`: the sample device on a transport that
refuses the connection. -/
theorem pollOnce_connect_failure_witness :
    refused.connect = some "timeout on Connect" ∧
    (pollOnce (binary64 false) 64 sensor1 refused).1 =
      Result.error ("connect: " ++ "timeout on Connect") ∧
    (∀ g l v, Event.set g l v ∉ (pollOnce (binary64 false) 64 sensor1 refused).2) ∧
    (∀ g, gaugeValue (binary64 false).zero g (sensor1.Address, sensor1.Name, sensor1.Disp)
      (pollOnce (binary64 false) 64 sensor1 refused).2 = some (binary64 false).zero) :=
  ⟨rfl, (pollOnce_connect_failure (binary64 false) 64 sensor1 refused _ rfl).1,
    (pollOnce_connect_failure (binary64 false) 64 sensor1 refused _ rfl).2.2.2.2.2.2.2.1,
    (pollOnce_connect_failure (binary64 false) 64 sensor1 refused _ rfl).2.2.2.2.2.2.2.2.1⟩

/-- C9, the code at failing inputs: when discovery returns, without error, no
service, or a single characteristic, `pollOnce` panics on `svcs[0]`, on `chars[1]`. -/
theorem pollOnce_panics_on_short_discovery :
    (pollOnce exactOps 64 sensor1 noService).1 =
      Result.panic "index out of range [0] with length 0" ∧
    (pollOnce exactOps 64 sensor1 oneCharacteristic).1 =
      Result.panic "index out of range [1] with length 1" := by
  decide

/-! ## The notification callback -/

/-- A payload that does not start with the first rune of a template misses it. -/
theorem parseInt_of_head (b : Nat) (lit fmt input : List Nat)
    (hfmt : (lit = batteryLiteral ∧ fmt = batteryFormat) ∨ (lit = tempLiteral ∧ fmt = tempFormat))
    (h : input.head? ≠ lit.head?) : parseInt b input fmt = (0, false) := by
  apply parseInt_of_no_stop b lit fmt input hfmt
  intro w inp1
  have hhead : (input.take hugeWid).head? = input.head? := by
    cases input with
    | nil => simp
    | cons a t => simp [hugeWid]
  rcases hfmt with ⟨rfl, rfl⟩ | ⟨rfl, rfl⟩
  · rw [batteryFormat_eq, batteryLiteral_eq] at *
    cases htk : input.take hugeWid with
    | nil => rw [List.cons_append, advance_lit_nil _ _ (by decide) (by decide)]; simp
    | cons r t =>
      rw [htk] at hhead
      have hr : r ≠ 66 := by
        intro hr; apply h; rw [← hhead, hr]; rfl
      rw [List.cons_append, advance_lit _ _ _ _ (by decide) (by decide), if_neg hr]
      simp
  · rw [tempFormat_eq, tempLiteral_eq] at *
    cases htk : input.take hugeWid with
    | nil => rw [List.cons_append, advance_lit_nil _ _ (by decide) (by decide)]; simp
    | cons r t =>
      rw [htk] at hhead
      have hr : r ≠ 84 := by
        intro hr; apply h; rw [← hhead, hr]; rfl
      rw [List.cons_append, advance_lit _ _ _ _ (by decide) (by decide), if_neg hr]
      simp

/-- A payload that the temperature template decodes is not a battery reply. -/
theorem parseInt_battery_of_temp (b : Nat) (buf : List Nat) (d : Int)
    (h : parseInt b buf tempFormat = (d, true)) : parseInt b buf batteryFormat = (0, false) := by
  have h84 : buf.head? = some 84 := by
    by_contra hne
    have := parseInt_of_head b tempLiteral tempFormat buf (Or.inr ⟨rfl, rfl⟩)
      (by rw [tempLiteral_eq]; exact hne)
    rw [this] at h
    simp at h
  apply parseInt_of_head b batteryLiteral batteryFormat buf (Or.inl ⟨rfl, rfl⟩)
  rw [h84, batteryLiteral_eq]
  simp

theorem onNotify_battery {F : Type} (ops : Float64Ops F) (b : Nat) (hb : b = 32 ∨ b = 64)
    (labels : Labels) (st : CbState F) (N : Int)
    (hlo : -(2 ^ (b - 1) : Int) ≤ N) (hhi : N < 2 ^ (b - 1)) :
    onNotify ops b labels st (runes "Battery voltage (mV): " ++ decimal N) =
      { st with mv := N,
                log := st.log ++ [Event.set Gauge.metricBattery labels (ops.ofInt N)] } := by
  have h : parseInt b (runes "Battery voltage (mV): " ++ decimal N) batteryFormat = (N, true) :=
    parseInt_reply b hb batteryLiteral batteryFormat (Or.inl ⟨rfl, rfl⟩) N hlo hhi
  simp only [onNotify, h]

/-- The temperature branch of the callback: a payload that the temperature
template decodes to `d` sets the temperature gauge to `float64(d)*0.018 + 32`. -/
theorem onNotify_of_temp {F : Type} (ops : Float64Ops F) (b : Nat) (labels : Labels)
    (st : CbState F) (buf : List Nat) (d : Int) (h : parseInt b buf tempFormat = (d, true)) :
    onNotify ops b labels st buf =
      { st with f := ops.mulAdd (ops.ofInt d) ops.c0018 ops.c32,
                log := st.log ++ [Event.set Gauge.metricTemp labels
                  (ops.mulAdd (ops.ofInt d) ops.c0018 ops.c32)] } := by
  simp only [onNotify, h, parseInt_battery_of_temp b buf d h]

theorem onNotify_temp {F : Type} (ops : Float64Ops F) (b : Nat) (hb : b = 32 ∨ b = 64)
    (labels : Labels) (st : CbState F) (M : Int)
    (hlo : -(2 ^ (b - 1) : Int) ≤ M) (hhi : M < 2 ^ (b - 1)) :
    onNotify ops b labels st (runes "Temperature value (0.01 degC): " ++ decimal M) =
      { st with f := ops.mulAdd (ops.ofInt M) ops.c0018 ops.c32,
                log := st.log ++ [Event.set Gauge.metricTemp labels
                  (ops.mulAdd (ops.ofInt M) ops.c0018 ops.c32)] } :=
  onNotify_of_temp ops b labels st _ M
    (parseInt_reply b hb tempLiteral tempFormat (Or.inr ⟨rfl, rfl⟩) M hlo hhi)

/-! ## The temperature conversion: claims -/

/-- C3, as stated, fails: for the decoded value 1 the temperature published, fused or
not, is `4506132902160892 * 2 ^ (-47)`, which is not `1 * 9/500 + 32`. -/
theorem temperature_not_exact :
    (∀ fused, (onNotify (binary64 fused) 64 ("AA:BB", "sensor1", "")
      { mv := 0, f := ⟨0, 0⟩, log := [] } (runes "Temperature value (0.01 degC): 1")).log =
      [Event.set Gauge.metricTemp ("AA:BB", "sensor1", "") ⟨4506132902160892, -47⟩]) ∧
    (⟨4506132902160892, -47⟩ : Float64).toRat ≠ 1 * 9 / 500 + 32 := by
  refine ⟨fun fused => by cases fused <;> decide, ?_⟩
  norm_num [Float64.toRat]

/-- C3, amended: the temperature published for a decoded raw value `d` is the
`float64` value of `float64(d)*0.018 + 32`: the product and the sum rounded to
nearest, ties to even, one after the other or, on a platform that fuses them,
once.  It differs from `d * 9/500 + 32` by at most `2 ^ (-51)` of
`|d| * 9/500 + 32`.  On either platform `d = 0` gives exactly 32 and `d = 10000`
exactly 212, the values of `d * 9/500 + 32`. -/
theorem temperature_published (fused : Bool) (intBits : Nat) (labels : Labels)
    (st : CbState Float64) (buf : List Nat) (d : Int)
    (h : parseInt intBits buf tempFormat = (d, true)) :
    (onNotify (binary64 fused) intBits labels st buf).log =
      st.log ++ [Event.set Gauge.metricTemp labels
        (if fused then Float64.fma (Float64.ofInt d) Float64.c0018 (Float64.ofInt 32)
         else Float64.add (Float64.mul (Float64.ofInt d) Float64.c0018) (Float64.ofInt 32))] ∧
    |(if fused then Float64.fma (Float64.ofInt d) Float64.c0018 (Float64.ofInt 32)
        else Float64.add (Float64.mul (Float64.ofInt d) Float64.c0018)
          (Float64.ofInt 32)).toRat - ((d : ℚ) * 9 / 500 + 32)| ≤
      (|(d : ℚ)| * 9 / 500 + 32) / 2 ^ 51 ∧
    (d = 0 → (onNotify (binary64 fused) intBits labels st buf).log =
      st.log ++ [Event.set Gauge.metricTemp labels (Float64.ofInt 32)]) ∧
    (Float64.ofInt 32).toRat = 0 * 9 / 500 + 32 ∧
    (d = 10000 → (onNotify (binary64 fused) intBits labels st buf).log =
      st.log ++ [Event.set Gauge.metricTemp labels (Float64.ofInt 212)]) ∧
    (Float64.ofInt 212).toRat = 10000 * 9 / 500 + 32 := by
  have hlog : (onNotify (binary64 fused) intBits labels st buf).log =
      st.log ++ [Event.set Gauge.metricTemp labels
        (if fused then Float64.fma (Float64.ofInt d) Float64.c0018 (Float64.ofInt 32)
         else Float64.add (Float64.mul (Float64.ofInt d) Float64.c0018) (Float64.ofInt 32))] := by
    rw [onNotify_of_temp (binary64 fused) intBits labels st buf d h]
    rfl
  refine ⟨hlog, mulAdd_error fused d, ?_, ?_, ?_, ?_⟩
  · intro hd
    rw [hlog, hd]
    have : (if fused then Float64.fma (Float64.ofInt 0) Float64.c0018 (Float64.ofInt 32)
        else Float64.add (Float64.mul (Float64.ofInt 0) Float64.c0018) (Float64.ofInt 32)) =
        Float64.ofInt 32 := by cases fused <;> decide
    rw [this]
  · rw [toRat_ofInt 32 (by decide)]; norm_num
  · intro hd
    rw [hlog, hd]
    have : (if fused then Float64.fma (Float64.ofInt 10000) Float64.c0018 (Float64.ofInt 32)
        else Float64.add (Float64.mul (Float64.ofInt 10000) Float64.c0018) (Float64.ofInt 32)) =
        Float64.ofInt 212 := by cases fused <;> decide
    rw [this]
  · rw [toRat_ofInt 212 (by decide)]; norm_num

/-- Witness of `temperature_published`: the reply for 10000, fused or not; the value
published is 212. -/
theorem temperature_published_witness :
    parseInt 64 (runes "Temperature value (0.01 degC): 10000") tempFormat = (10000, true) ∧
    (∀ fused, (onNotify (binary64 fused) 64 ("AA:BB", "sensor1", "")
      { mv := 0, f := ⟨0, 0⟩, log := [] } (runes "Temperature value (0.01 degC): 10000")).log =
      [Event.set Gauge.metricTemp ("AA:BB", "sensor1", "") (Float64.ofInt 212)]) ∧
    (Float64.ofInt 212).toRat = 10000 * 9 / 500 + 32 :=
  ⟨by decide,
    fun fused => (temperature_published fused 64 ("AA:BB", "sensor1", "")
      { mv := 0, f := ⟨0, 0⟩, log := [] }
      (runes "Temperature value (0.01 degC): 10000") 10000 (by decide)).2.2.2.2.1 rfl,
    (temperature_published false 64 ("AA:BB", "sensor1", "")
      { mv := 0, f := ⟨0, 0⟩, log := [] }
      (runes "Temperature value (0.01 degC): 10000") 10000 (by decide)).2.2.2.2.2⟩

/-! ## The two replies: claims -/

theorem pollOnce_gauges {F : Type} (ops : Float64Ops F) (intBits : Nat)
    (hbits : intBits = 32 ∨ intBits = 64) (d : Device) (t : Transport F)
    (svc : Service) (svcs : List Service) (tx rx : Characteristic) (chars : List Characteristic)
    (N M : Int)
    (hNlo : -(2 ^ (intBits - 1) : Int) ≤ N) (hNhi : N < 2 ^ (intBits - 1))
    (hMlo : -(2 ^ (intBits - 1) : Int) ≤ M) (hMhi : M < 2 ^ (intBits - 1))
    (hconn : t.connect = none) (hsvc : t.services = Except.ok (svc :: svcs))
    (hchars : svc.characteristics = Except.ok (tx :: rx :: chars))
    (hen : tx.enableNotifications = none)
    (horder :
      tx.early ++ tx.late =
        [runes "Battery voltage (mV): " ++ decimal N,
         runes "Temperature value (0.01 degC): " ++ decimal M] ∨
      tx.early ++ tx.late =
        [runes "Temperature value (0.01 degC): " ++ decimal M,
         runes "Battery voltage (mV): " ++ decimal N]) :
    gaugeValue ops.zero Gauge.metricBattery (d.Address, d.Name, d.Disp)
      (pollOnce ops intBits d t).2 = some (ops.ofInt N) ∧
    gaugeValue ops.zero Gauge.metricTemp (d.Address, d.Name, d.Disp)
      (pollOnce ops intBits d t).2 = some (ops.mulAdd (ops.ofInt M) ops.c0018 ops.c32) := by
  have hB := fun st => onNotify_battery ops intBits hbits (d.Address, d.Name, d.Disp) st N hNlo hNhi
  have hT := fun st => onNotify_temp ops intBits hbits (d.Address, d.Name, d.Disp) st M hMlo hMhi
  have hsplit : ∀ p q : List Nat, tx.early ++ tx.late = [p, q] →
      (tx.early = [] ∧ tx.late = [p, q]) ∨ (tx.early = [p] ∧ tx.late = [q]) ∨
      (tx.early = [p, q] ∧ tx.late = []) := by
    intro p q h
    rcases hE : tx.early with _ | ⟨a, _ | ⟨a2, e2⟩⟩
    · rw [hE] at h; simp at h; simp [h]
    · rw [hE] at h; simp at h; simp [h]
    · rw [hE] at h; simp at h
      obtain ⟨h1, h2, h3, h4⟩ := h
      simp [h1, h2, h3, h4]
  rcases hdis : t.disconnect with _ | e <;> rcases horder with h | h <;>
    rcases hsplit _ _ h with ⟨h1, h2⟩ | ⟨h1, h2⟩ | ⟨h1, h2⟩ <;>
    simp [pollOnce, hconn, hsvc, hchars, hen, hdis, h1, h2, hB, hT, gaugeValue, gaugeStep]

/-- C7, as stated, fails: the battery gauge holds a `float64`.  For the reply
`9007199254740993`, which is `2 ^ 53 + 1` and inside the range of a 64-bit `int`, it
holds `2 ^ 53`. -/
theorem battery_gauge_rounds :
    gaugeValue (binary64 false).zero Gauge.metricBattery ("AA:BB", "sensor1", "")
      (pollOnce (binary64 false) 64 sensor1 largeBattery).2 = some ⟨2 ^ 52, 1⟩ ∧
    (⟨2 ^ 52, 1⟩ : Float64).toRat = 9007199254740992 ∧
    (9007199254740992 : ℚ) ≠ 9007199254740993 := by
  refine ⟨by decide, ?_, by norm_num⟩
  norm_num [Float64.toRat]

/-- C7, amended: in one acquisition cycle whose callback receives the battery
reply for `N` and the temperature reply for `M` (`N`, `M` in `int` range), in either
order and wherever the pacing delay falls between them, the battery gauge of the
device's labels `(address, name, display_name)` afterwards holds `float64(N)`,
which is `N` itself when `|N| ≤ 2 ^ 53`, and the temperature gauge holds the
`float64` value of `float64(M)*0.018 + 32`, fused or not.  For `N = 3300` and
`M = 2500` the gauges hold 3300 and 77. -/
theorem pollOnce_replies_either_order (fused : Bool) (intBits : Nat)
    (hbits : intBits = 32 ∨ intBits = 64) (d : Device) (t : Transport Float64)
    (svc : Service) (svcs : List Service) (tx rx : Characteristic) (chars : List Characteristic)
    (N M : Int)
    (hNlo : -(2 ^ (intBits - 1) : Int) ≤ N) (hNhi : N < 2 ^ (intBits - 1))
    (hMlo : -(2 ^ (intBits - 1) : Int) ≤ M) (hMhi : M < 2 ^ (intBits - 1))
    (hconn : t.connect = none) (hsvc : t.services = Except.ok (svc :: svcs))
    (hchars : svc.characteristics = Except.ok (tx :: rx :: chars))
    (hen : tx.enableNotifications = none)
    (horder :
      tx.early ++ tx.late =
        [runes "Battery voltage (mV): " ++ decimal N,
         runes "Temperature value (0.01 degC): " ++ decimal M] ∨
      tx.early ++ tx.late =
        [runes "Temperature value (0.01 degC): " ++ decimal M,
         runes "Battery voltage (mV): " ++ decimal N]) :
    gaugeValue (binary64 fused).zero Gauge.metricBattery (d.Address, d.Name, d.Disp)
      (pollOnce (binary64 fused) intBits d t).2 = some (Float64.ofInt N) ∧
    (N.natAbs ≤ 2 ^ 53 → (Float64.ofInt N).toRat = N) ∧
    gaugeValue (binary64 fused).zero Gauge.metricTemp (d.Address, d.Name, d.Disp)
      (pollOnce (binary64 fused) intBits d t).2 =
      some (if fused then Float64.fma (Float64.ofInt M) Float64.c0018 (Float64.ofInt 32)
        else Float64.add (Float64.mul (Float64.ofInt M) Float64.c0018) (Float64.ofInt 32)) ∧
    (N = 3300 → M = 2500 →
      gaugeValue (binary64 fused).zero Gauge.metricBattery (d.Address, d.Name, d.Disp)
        (pollOnce (binary64 fused) intBits d t).2 = some (Float64.ofInt 3300) ∧
      (Float64.ofInt 3300).toRat = 3300 ∧
      gaugeValue (binary64 fused).zero Gauge.metricTemp (d.Address, d.Name, d.Disp)
        (pollOnce (binary64 fused) intBits d t).2 = some (Float64.ofInt 77) ∧
      (Float64.ofInt 77).toRat = 77) := by
  have h := pollOnce_gauges (binary64 fused) intBits hbits d t svc svcs tx rx chars N M
    hNlo hNhi hMlo hMhi hconn hsvc hchars hen horder
  refine ⟨h.1, toRat_ofInt N, h.2, ?_⟩
  intro hN hM
  have h77 : (if fused then Float64.fma (Float64.ofInt 2500) Float64.c0018 (Float64.ofInt 32)
      else Float64.add (Float64.mul (Float64.ofInt 2500) Float64.c0018) (Float64.ofInt 32)) =
      Float64.ofInt 77 := by cases fused <;> decide
  refine ⟨by rw [h.1, hN]; rfl, toRat_ofInt 3300 (by decide), ?_, toRat_ofInt 77 (by decide)⟩
  rw [h.2, hM]
  exact congrArg some h77

/-- Witness of `pollOnce_replies_either_order`: the sample device and the replies
3300 and 2500: the battery gauge holds 3300 and the temperature gauge 77, with
and without fusing. -/
theorem pollOnce_replies_either_order_witness :
    (64 = 32 ∨ 64 = 64) ∧
    twoReplies.connect = none ∧
    (∀ fused, gaugeValue (binary64 fused).zero Gauge.metricBattery ("AA:BB", "sensor1", "")
      (pollOnce (binary64 fused) 64 sensor1 twoReplies).2 = some (Float64.ofInt 3300)) ∧
    (Float64.ofInt 3300).toRat = 3300 ∧
    (∀ fused, gaugeValue (binary64 fused).zero Gauge.metricTemp ("AA:BB", "sensor1", "")
      (pollOnce (binary64 fused) 64 sensor1 twoReplies).2 = some (Float64.ofInt 77)) ∧
    (Float64.ofInt 77).toRat = 77 := by
  have h := fun fused => pollOnce_replies_either_order fused 64 (Or.inr rfl) sensor1 twoReplies
    (Service.mk (Except.ok
      [Characteristic.mk none [runes "Battery voltage (mV): 3300"]
         [runes "Temperature value (0.01 degC): 2500"],
       Characteristic.mk none [] []])) []
    (Characteristic.mk none [runes "Battery voltage (mV): 3300"]
         [runes "Temperature value (0.01 degC): 2500"])
    (Characteristic.mk none [] []) [] 3300 2500 (by norm_num) (by norm_num) (by norm_num)
    (by norm_num) rfl rfl rfl rfl
    (Or.inl (by rw [decimal_3300, decimal_2500]; decide))
  exact ⟨Or.inr rfl, rfl, fun fused => ((h fused).2.2.2 rfl rfl).1,
    ((h false).2.2.2 rfl rfl).2.1, fun fused => ((h fused).2.2.2 rfl rfl).2.2.1,
    ((h false).2.2.2 rfl rfl).2.2.2⟩

/-! ## The scheduler loop: claims -/

theorem pollLoop_returns {F : Type} (ops : Float64Ops F) (intBits : Nat) (dev : Device)
    (env : Nat → Transport F) (n : Nat) :
    ∀ k, (∀ j, j < n → ∀ msg, (pollOnce ops intBits dev (env (k + j))).1 ≠ Result.panic msg) →
      pollLoop ops intBits dev env k n =
        ((List.range n).flatMap (fun j =>
          PollEvent.tick :: cycleEvents dev (pollOnce ops intBits dev (env (k + j)))), none) := by
  induction n with
  | zero => intro k _; simp [pollLoop]
  | succ n ih =>
    intro k h
    have h0 := h 0 (Nat.succ_pos n)
    have hrest := ih (k + 1) (fun j hj msg => by
      have := h (j + 1) (Nat.succ_lt_succ hj) msg
      rwa [show k + (j + 1) = k + 1 + j by omega] at this)
    rw [List.range_succ_eq_map, List.flatMap_cons, List.flatMap_map]
    unfold pollLoop
    rw [hrest]
    simp only [Nat.add_zero] at h0 ⊢
    have hfun : (fun j => PollEvent.tick :: cycleEvents dev (pollOnce ops intBits dev (env (k + 1 + j))))
        = ((fun j => PollEvent.tick :: cycleEvents dev (pollOnce ops intBits dev (env (k + j))))
            ∘ Nat.succ) := by
      funext j
      simp only [Function.comp, Nat.succ_eq_add_one]
      rw [show k + 1 + j = k + (j + 1) by omega]
    rw [hfun]
    split
    · next msg log heq => exact absurd (congrArg Prod.fst heq) (h0 msg)
    · rfl

/-- C8, as stated, fails: with a negative configured interval `poll` runs the
immediate cycle and then panics in `time.NewTicker`; however many ticks would
follow, no ticker is made and no further cycle runs. -/
theorem poll_negative_interval_panics :
    (poll exactOps 64 backwards (fun _ => bothReplies) 3).2 =
      some "non-positive interval for NewTicker" ∧
    (poll exactOps 64 backwards (fun _ => bothReplies) 3).1.length = 1 := by
  decide

/-- C8, amended: for a device whose configured interval is not negative, and as
long as the cycles return (nil or an error), `poll` runs one cycle at once, makes a
ticker whose interval is the configured one, or one minute when that is zero, and
then runs one cycle per tick, whatever the earlier cycles returned. -/
theorem poll_schedule {F : Type} (ops : Float64Ops F) (intBits : Nat) (dev : Device)
    (env : Nat → Transport F) (n : Nat) (hfreq : 0 ≤ dev.Freq)
    (hret : ∀ k, k ≤ n → ∀ msg, (pollOnce ops intBits dev (env k)).1 ≠ Result.panic msg) :
    poll ops intBits dev env n =
      (cycleEvents dev (pollOnce ops intBits dev (env 0)) ++
        PollEvent.newTicker (if dev.Freq = 0 then Minute else dev.Freq) ::
        (List.range n).flatMap (fun j =>
          PollEvent.tick :: cycleEvents dev (pollOnce ops intBits dev (env (1 + j)))), none) := by
  have hloop := pollLoop_returns ops intBits dev env n 1 (fun j hj msg =>
    hret (1 + j) (by omega) msg)
  have hpos : ¬ (if dev.Freq = 0 then Minute else dev.Freq) ≤ 0 := by
    split
    · decide
    · omega
  unfold poll
  split
  · next msg log heq => exact absurd (congrArg Prod.fst heq) (hret 0 (Nat.zero_le n) msg)
  · simp only [hpos, if_false, hloop]

/-- Witness of `poll_schedule`: the sample device (no interval configured) over
two ticks, the cycle at the first tick failing in discovery. -/
theorem poll_schedule_witness :
    (0 : Int) ≤ sensor1.Freq ∧
    poll exactOps 64 sensor1 (fun k => if k = 1 then discoveryFails else bothReplies) 2 =
      (cycleEvents sensor1 (pollOnce exactOps 64 sensor1 bothReplies) ++
        PollEvent.newTicker Minute ::
          (PollEvent.tick :: cycleEvents sensor1 (pollOnce exactOps 64 sensor1 discoveryFails) ++
            (PollEvent.tick :: cycleEvents sensor1 (pollOnce exactOps 64 sensor1 bothReplies))),
        none) := by
  have h1 : (pollOnce exactOps 64 sensor1 bothReplies).1 = Result.nil := by decide
  have h2 : (pollOnce exactOps 64 sensor1 discoveryFails).1 =
      Result.error "discover services: timeout on DiscoverServices" := by decide
  have h := poll_schedule exactOps 64 sensor1
    (fun k => if k = 1 then discoveryFails else bothReplies) 2 (by decide)
    (by
      intro k _ msg
      by_cases hk : k = 1
      · simp only [hk, if_true, h2]; exact fun h => Result.noConfusion h
      · simp only [hk, if_false, h1]; exact fun h => Result.noConfusion h)
  refine ⟨by decide, ?_⟩
  rw [h]
  simp [List.range_succ, sensor1]

end BleSensor
